import Mathlib

/-!
Shallow embedding of the spasm assembler front end (lexer `src/token.rs` and
parser `src/parse.rs`) together with proofs about it.  The Rust code reports
errors through `report_error` (which prints a diagnostic and exits the
process) and through `panic!`/`todo!`; both are modelled here as values of the
`Failure` type propagated in `Except`, so every fallible operation returns
`Except Failure α`.  Machine integers (`u16`) are modelled as `Nat` with the
explicit bound 65535 where the Rust code checks for overflow.
-/

namespace Spasm

/-- Failure of the pipeline: `reported msg line colStart colEnd` models a call
to `report_error` (which never returns), and `panicked msg` models a Rust
`panic!`, a failed `assert!`, or a `todo!`. -/
inductive Failure where
  | reported (msg : String) (line colStart colEnd : Nat)
  | panicked (msg : String)
deriving DecidableEq, Repr

/-- TokenType from `src/token.rs`: the closed set of token kinds produced by
the lexer. -/
inductive TokenType where
  | Label (name : String)
  | Directive (name : String)
  | Instruction (name : String)
  | Comma
  | Register (name : String)
  | Immediate
  | Decimal (digits : String)
  | Binary (digits : String)
  | Hex (digits : String)
  | AsciiString (contents : String)
  | Identifier (name : String)
  | OpenBracket
  | CloseBracket
  | OpenParenthesis
  | CloseParenthesis
deriving DecidableEq, Repr

/-- Token from `src/token.rs`. -/
structure Token where
  line_number : Nat
  column_start : Nat
  column_end : Nat
  value : String
  token_type : TokenType
deriving DecidableEq, Repr

/-- Rust `char::is_alphabetic`, modelled on the ASCII letters.  Non-ASCII
alphabetic code points are not modelled; in the Rust code every token starting
with such a character is rejected by the `^[a-zA-Z0-9_]*$` payload check, so
on those inputs both the model and the code fail with a lexical error. -/
def charIsAlphabetic (c : Char) : Bool := c.isAlpha

/-- Rust `char::is_numeric` (Unicode `Numeric_Type` is not `None`).  The full
Unicode table is impractical to embed; this model covers the ASCII digits
together with the Arabic-Indic digit block U+0660..U+0669, which are genuine
members of the Unicode `Nd` category and hence accepted by the Rust predicate;
they are the only non-ASCII code points exercised in this development. -/
def charIsNumeric (c : Char) : Bool :=
  c.isDigit || (0x660 ≤ c.toNat && c.toNat ≤ 0x669)

/-- Regex check `^[a-zA-Z0-9_]*$` from the `Alphabetic::is_alphanumeric` impl
in `src/token.rs`, applied to a list of characters. -/
def chars_alphanumeric (l : List Char) : Bool :=
  l.all (fun c => c.isAlphanum || c == '_')

/-- Regex check `^[0-9]*$` from `Alphabetic::is_numeric` in `src/token.rs`. -/
def chars_numeric (l : List Char) : Bool :=
  l.all (fun c => c.isDigit)

/-- Regex check `^[0-1]*$` from `Alphabetic::is_binary` in `src/token.rs`. -/
def chars_binary (l : List Char) : Bool :=
  l.all (fun c => c == '0' || c == '1')

/-- Regex check `^[0-9a-fA-F]*$` from `Alphabetic::is_hex` in
`src/token.rs`. -/
def chars_hex (l : List Char) : Bool :=
  l.all (fun c => c.isDigit || ('a' ≤ c && c ≤ 'f') || ('A' ≤ c && c ≤ 'F'))

/-- Error kinds of Rust `u16::from_str_radix` that can occur here. -/
inductive IntErrorKind where
  | Empty
  | InvalidDigit
  | PosOverflow
deriving DecidableEq, Repr

/-- Rust `char::to_digit`: ASCII digits and letters only, valid below the
radix. -/
def char_to_digit (c : Char) (radix : Nat) : Option Nat :=
  let d :=
    if c.isDigit then some (c.toNat - 48)
    else if 'a' ≤ c && c ≤ 'z' then some (c.toNat - 97 + 10)
    else if 'A' ≤ c && c ≤ 'Z' then some (c.toNat - 65 + 10)
    else none
  match d with
  | some v => if v < radix then some v else none
  | none => none

/-- Digit-accumulation loop of `u16::from_str_radix`: left to right, the
accumulator is multiplied by the radix and the digit added, failing with
`InvalidDigit` at the first non-digit and with `PosOverflow` at the first step
whose checked multiply-add leaves the `u16` range (the two checked operations
`checked_mul`/`checked_add` fail together exactly when the exact value of
`acc * radix + d` exceeds 65535). -/
def from_str_radix_go (radix : Nat) : List Char → Nat → Except IntErrorKind Nat
  | [], acc => .ok acc
  | c :: cs, acc =>
    match char_to_digit c radix with
    | none => .error .InvalidDigit
    | some d =>
      if 65535 < acc * radix + d then .error .PosOverflow
      else from_str_radix_go radix cs (acc * radix + d)

/-- Rust `u16::from_str_radix`: empty input is `Empty`, a lone sign is
`InvalidDigit`, a leading `+` is skipped (a `-` is not, since `u16` is
unsigned, so it fails as an invalid digit), then the digits are accumulated. -/
def from_str_radix_u16 (radix : Nat) (s : String) : Except IntErrorKind Nat :=
  match s.data with
  | [] => .error .Empty
  | ['+'] => .error .InvalidDigit
  | ['-'] => .error .InvalidDigit
  | '+' :: rest => from_str_radix_go radix rest 0
  | cs => from_str_radix_go radix cs 0

/-- Overflow message of the binary branch of `Token::parse_u16` (and of the
identical inlined branch in `DataSection::parse`). -/
def binOverflowMsg : String :=
  "Binary literal is larger than expected 16-bit word! (Max is %1111111111111111)"

/-- Overflow message of the decimal branch. -/
def decOverflowMsg : String :=
  "Decimal literal is larger than expected 16-bit word! (Max is 65535)"

/-- Overflow message of the hexadecimal branch. -/
def hexOverflowMsg : String :=
  "Hexadecimal literal is larger than expected 16-bit word! (Max is $FFFF)"

/-- Shared body of the three numeric branches of `Token::parse_u16` in
`src/token.rs` and of the textually identical `.word` branches inlined in
`DataSection::parse` in `src/parse.rs`: run `u16::from_str_radix`, report the
radix-specific overflow message on `PosOverflow`, and panic on any other
error kind. -/
def radix_word_u16 (radix : Nat) (overflowMsg : String) (t : Token)
    (digits : String) : Except Failure Nat :=
  match from_str_radix_u16 radix digits with
  | .ok v => .ok v
  | .error .PosOverflow =>
    .error (.reported overflowMsg t.line_number t.column_start t.column_end)
  | .error _ => .error (.panicked "Unexpected IntErrorKind")

/-- Token.parse_u16 from `src/token.rs`. -/
def Token.parse_u16 (t : Token) : Except Failure Nat :=
  match t.token_type with
  | .Binary digits => radix_word_u16 2 binOverflowMsg t digits
  | .Decimal digits => radix_word_u16 10 decOverflowMsg t digits
  | .Hex digits => radix_word_u16 16 hexOverflowMsg t digits
  | _ => .error (.panicked "Cannot parse u16 from non number type!")

theorem except_bind_ok {ε α β : Type} (a : α) (f : α → Except ε β) :
    (Except.ok a >>= f) = f a := rfl

theorem except_bind_error {ε α β : Type} (e : ε) (f : α → Except ε β) :
    ((Except.error e : Except ε α) >>= f) = Except.error e := rfl

/-- Scanning core of `read_to_chars` in `src/token.rs`: consume characters
until one of the given delimiter characters is at the front, returning the
consumed characters and the remaining ones (the delimiter stays). -/
def read_to_chars_go (characters : List Char) : List Char → List Char × List Char
  | [] => ([], [])
  | c :: cs =>
    if c ∈ characters then ([], c :: cs)
    else
      let (tk, rest) := read_to_chars_go characters cs
      (c :: tk, rest)

theorem read_to_chars_go_append (characters l : List Char) :
    (read_to_chars_go characters l).1 ++ (read_to_chars_go characters l).2 = l := by
  induction l with
  | nil => simp [read_to_chars_go]
  | cons c cs ih =>
    simp only [read_to_chars_go]
    by_cases hc : c ∈ characters
    · simp [hc]
    · simp only [hc, if_neg, if_false]
      cases hgo : read_to_chars_go characters cs with
      | mk tk rest =>
        simp only [hgo] at ih ⊢
        simpa using ih

/-- read_to_chars from `src/token.rs`.  The Rust function mutates a column
counter and a character deque; here the updated counter and the remaining
characters are returned.  It returns `None` when called on an empty deque and
when the accumulated string is empty at a delimiter; reaching the end of the
line yields the accumulated (necessarily non-empty) string. -/
def read_to_chars (characters : List Char) (col_number : Nat)
    (chars : List Char) : Option (List Char) × Nat × List Char :=
  match chars with
  | [] => (none, col_number, [])
  | c :: cs =>
    let (tk, rest) := read_to_chars_go characters (c :: cs)
    match rest with
    | [] => (some tk, col_number + tk.length, [])
    | _ => ((if tk.isEmpty then none else some tk), col_number + tk.length, rest)

theorem read_to_chars_rest_sublen (characters : List Char) (col_number : Nat)
    (chars : List Char) :
    (read_to_chars characters col_number chars).2.2.length ≤ chars.length := by
  match chars with
  | [] => simp [read_to_chars]
  | c :: cs =>
    have h := read_to_chars_go_append characters (c :: cs)
    simp only [read_to_chars]
    cases hgo : read_to_chars_go characters (c :: cs) with
    | mk tk rest =>
      simp only [hgo] at h
      have hlen : tk.length + rest.length = (c :: cs).length := by
        rw [← h]; simp [List.length_append]
      match rest with
      | [] => simp
      | r :: rs =>
        simp only [List.length_cons] at hlen ⊢
        omega

/-- Scanning core of `read_to_char_inclusive` in `src/token.rs`: consume up to
and including the first occurrence of the character; the boolean records
whether the character was found before the end. -/
def read_to_char_inclusive_go (character : Char) :
    List Char → List Char × Bool × List Char
  | [] => ([], false, [])
  | c :: cs =>
    if c == character then ([c], true, cs)
    else
      let (tk, found, rest) := read_to_char_inclusive_go character cs
      (c :: tk, found, rest)

theorem read_to_char_inclusive_go_append (character : Char) (l : List Char) :
    (read_to_char_inclusive_go character l).1 ++
      (read_to_char_inclusive_go character l).2.2 = l := by
  induction l with
  | nil => simp [read_to_char_inclusive_go]
  | cons c cs ih =>
    simp only [read_to_char_inclusive_go]
    by_cases hc : c == character
    · simp [hc]
    · simp only [hc, Bool.false_eq_true, if_false]
      cases hgo : read_to_char_inclusive_go character cs with
      | mk tk p =>
        simp only [hgo] at ih ⊢
        simpa using ih

/-- read_to_char_inclusive from `src/token.rs`.  The column counter is
incremented for every consumed character except the terminating one (the Rust
code pushes the terminator without incrementing `col_number`).  When the
terminator never appears the whole rest of the line is consumed and still
returned as `some` — the function only returns `none` on an empty deque. -/
def read_to_char_inclusive (character : Char) (col_number : Nat)
    (chars : List Char) : Option (List Char) × Nat × List Char :=
  match chars with
  | [] => (none, col_number, [])
  | c :: cs =>
    let (tk, found, rest) := read_to_char_inclusive_go character (c :: cs)
    (some tk, col_number + (if found then tk.length - 1 else tk.length), rest)

theorem read_to_char_inclusive_rest_sublen (character : Char) (col_number : Nat)
    (chars : List Char) :
    (read_to_char_inclusive character col_number chars).2.2.length ≤ chars.length := by
  match chars with
  | [] => simp [read_to_char_inclusive]
  | c :: cs =>
    have h := read_to_char_inclusive_go_append character (c :: cs)
    simp only [read_to_char_inclusive]
    cases hgo : read_to_char_inclusive_go character (c :: cs) with
    | mk tk p =>
      simp only [hgo] at h ⊢
      have hlen : tk.length + p.2.length = (c :: cs).length := by
        rw [← h]; simp [List.length_append]
      simp only [List.length_cons] at hlen ⊢
      omega

/-- Delimiter list passed to `read_to_chars` for directive and bare-identifier
scanning in `src/token.rs` (note: no semicolon). -/
def identDelims : List Char := [' ', ']', ')', '[', '(', ',']

/-- Delimiter list passed to `read_to_chars` for register/binary, hex and
decimal scanning in `src/token.rs` (including the semicolon). -/
def numDelims : List Char := [' ', ',', ';', '(', ')', '[', ']']

theorem read_to_chars_eq_len {d : List Char} {col : Nat} {l : List Char}
    {o : Option (List Char)} {c2 : Nat} {rest : List Char}
    (h : read_to_chars d col l = (o, c2, rest)) : rest.length ≤ l.length := by
  have hs := read_to_chars_rest_sublen d col l
  rw [h] at hs
  exact hs

theorem read_to_char_inclusive_eq_len {ch : Char} {col : Nat} {l : List Char}
    {o : Option (List Char)} {c2 : Nat} {rest : List Char}
    (h : read_to_char_inclusive ch col l = (o, c2, rest)) :
    rest.length ≤ l.length := by
  have hs := read_to_char_inclusive_rest_sublen ch col l
  rw [h] at hs
  exact hs

/-- Line-scanning loop of `tokenize_lines` in `src/token.rs`.  One call
processes the rest of one line: the running column counter and the two
per-line booleans `found_instruction`/`found_directive` are threaded through
explicitly, and the tokens of the rest of the line are returned in order
(the Rust code pushes them onto a global deque, which is equivalent).  Errors
model `report_error`, which aborts the whole run.  String contents are taken
at character level where the Rust code slices bytes; the two agree whenever
the final character of the accumulated text is ASCII, which holds for every
input considered in this development. -/
def tokenize_line (line_number : Nat) :
    Nat → Bool → Bool → List Char → Except Failure (List Token)
  | _, _, _, [] => .ok []
  | col_number, found_instruction, found_directive, first_char :: cs =>
    if first_char == ' ' then
      tokenize_line line_number (col_number + 1) found_instruction
        found_directive cs
    else if first_char == ';' then
      .ok []
    else if first_char == '.' then
      match (read_to_chars identDelims (col_number + 1) cs).1 with
      | none =>
        .error (.reported "Unexpected end of directive token"
          line_number col_number (read_to_chars identDelims (col_number + 1) cs).2.1)
      | some value =>
        if !chars_alphanumeric value then
          .error (.reported "Directive names must be alphanumeric!"
            line_number col_number (read_to_chars identDelims (col_number + 1) cs).2.1)
        else do
          let ts ← tokenize_line line_number (read_to_chars identDelims (col_number + 1) cs).2.1 found_instruction true
            (read_to_chars identDelims (col_number + 1) cs).2.2
          .ok (⟨line_number, col_number, (read_to_chars identDelims (col_number + 1) cs).2.1,
                String.mk (first_char :: value),
                .Directive (String.mk value)⟩ :: ts)
    else if charIsAlphabetic first_char || first_char == '_' then
      if (first_char :: (read_to_chars identDelims (col_number + 1) cs).1.getD []).getLast? == some ':' then
        if !chars_alphanumeric (first_char :: (read_to_chars identDelims (col_number + 1) cs).1.getD []).dropLast then
          .error (.reported "Label name must be alphanumeric!"
            line_number col_number (read_to_chars identDelims (col_number + 1) cs).2.1)
        else do
          let ts ← tokenize_line line_number (read_to_chars identDelims (col_number + 1) cs).2.1 found_instruction
            found_directive (read_to_chars identDelims (col_number + 1) cs).2.2
          .ok (⟨line_number, col_number, (read_to_chars identDelims (col_number + 1) cs).2.1,
                String.mk (first_char :: (read_to_chars identDelims (col_number + 1) cs).1.getD []),
                .Label (String.mk (first_char :: (read_to_chars identDelims (col_number + 1) cs).1.getD []).dropLast)⟩ :: ts)
      else if !found_instruction && !found_directive then
        if !chars_alphanumeric (first_char :: (read_to_chars identDelims (col_number + 1) cs).1.getD []) then
          .error (.reported "Instruction name must be alphanumeric!"
            line_number col_number (read_to_chars identDelims (col_number + 1) cs).2.1)
        else do
          let ts ← tokenize_line line_number (read_to_chars identDelims (col_number + 1) cs).2.1 true found_directive
            (read_to_chars identDelims (col_number + 1) cs).2.2
          .ok (⟨line_number, col_number, (read_to_chars identDelims (col_number + 1) cs).2.1,
                String.mk (first_char :: (read_to_chars identDelims (col_number + 1) cs).1.getD []),
                .Instruction (String.mk (first_char :: (read_to_chars identDelims (col_number + 1) cs).1.getD []))⟩ :: ts)
      else
        if !chars_alphanumeric (first_char :: (read_to_chars identDelims (col_number + 1) cs).1.getD []) then
          .error (.reported "Identifier name must be alphanumeric!"
            line_number col_number (read_to_chars identDelims (col_number + 1) cs).2.1)
        else do
          let ts ← tokenize_line line_number (read_to_chars identDelims (col_number + 1) cs).2.1 found_instruction
            found_directive (read_to_chars identDelims (col_number + 1) cs).2.2
          .ok (⟨line_number, col_number, (read_to_chars identDelims (col_number + 1) cs).2.1,
                String.mk (first_char :: (read_to_chars identDelims (col_number + 1) cs).1.getD []),
                .Identifier (String.mk (first_char :: (read_to_chars identDelims (col_number + 1) cs).1.getD []))⟩ :: ts)
    else if first_char == '"' then
      match (read_to_char_inclusive '\"' (col_number + 1) cs).1 with
      | none =>
        .error (.reported "Expected closing \x27\x22\x27 for string literal"
          line_number col_number (read_to_char_inclusive '\"' (col_number + 1) cs).2.1)
      | some value =>
        do
          let ts ← tokenize_line line_number (read_to_char_inclusive '\"' (col_number + 1) cs).2.1 found_instruction
            found_directive (read_to_char_inclusive '\"' (col_number + 1) cs).2.2
          .ok (⟨line_number, col_number, (read_to_char_inclusive '\"' (col_number + 1) cs).2.1,
                String.mk (first_char :: value),
                .AsciiString (String.mk ((first_char :: value).drop 1).dropLast)⟩ :: ts)
    else if first_char == '%' then
      match (read_to_chars numDelims (col_number + 1) cs).1 with
      | none =>
        .error (.reported "Unexpected end of token"
          line_number col_number (read_to_chars numDelims (col_number + 1) cs).2.1)
      | some value =>
        if chars_numeric value then
          if !chars_binary value then
            .error (.reported "\x27%\x27 Can only be used for binary literals!"
              line_number col_number (read_to_chars numDelims (col_number + 1) cs).2.1)
          else do
            let ts ← tokenize_line line_number (read_to_chars numDelims (col_number + 1) cs).2.1 found_instruction
              found_directive (read_to_chars numDelims (col_number + 1) cs).2.2
            .ok (⟨line_number, col_number, (read_to_chars numDelims (col_number + 1) cs).2.1,
                  String.mk (first_char :: value),
                  .Binary (String.mk value)⟩ :: ts)
        else
          if !chars_alphanumeric value then
            .error (.reported "Register names must be alphanumeric!"
              line_number col_number (read_to_chars numDelims (col_number + 1) cs).2.1)
          else do
            let ts ← tokenize_line line_number (read_to_chars numDelims (col_number + 1) cs).2.1 found_instruction
              found_directive (read_to_chars numDelims (col_number + 1) cs).2.2
            .ok (⟨line_number, col_number, (read_to_chars numDelims (col_number + 1) cs).2.1,
                  String.mk (first_char :: value),
                  .Register (String.mk value)⟩ :: ts)
    else if first_char == ',' then do
      let ts ← tokenize_line line_number (col_number + 1) found_instruction
        found_directive cs
      .ok (⟨line_number, col_number, col_number + 1, String.mk [first_char],
            .Comma⟩ :: ts)
    else if first_char == '#' then do
      let ts ← tokenize_line line_number (col_number + 1) found_instruction
        found_directive cs
      .ok (⟨line_number, col_number, col_number + 1, String.mk [first_char],
            .Immediate⟩ :: ts)
    else if first_char == '$' then
      match (read_to_chars numDelims (col_number + 1) cs).1 with
      | none =>
        .error (.reported "Unexpected end of hex literal token"
          line_number col_number (read_to_chars numDelims (col_number + 1) cs).2.1)
      | some value =>
        if !chars_alphanumeric value then
          .error (.reported "Unexpected non-alphanumeric characters in hex literal!"
            line_number col_number (read_to_chars numDelims (col_number + 1) cs).2.1)
        else if !chars_hex value then
          .error (.reported "\x27$\x27 Can only be used for hex literals!"
            line_number col_number (read_to_chars numDelims (col_number + 1) cs).2.1)
        else do
          let ts ← tokenize_line line_number (read_to_chars numDelims (col_number + 1) cs).2.1 found_instruction
            found_directive (read_to_chars numDelims (col_number + 1) cs).2.2
          .ok (⟨line_number, col_number, (read_to_chars numDelims (col_number + 1) cs).2.1,
                String.mk (first_char :: value),
                .Hex (String.mk value)⟩ :: ts)
    else if charIsNumeric first_char then
      if !chars_numeric ((read_to_chars numDelims (col_number + 1) cs).1.getD []) then
        .error (.reported "Unexpected non-numeric characters in decimal literal!"
          line_number col_number (read_to_chars numDelims (col_number + 1) cs).2.1)
      else do
        let ts ← tokenize_line line_number (read_to_chars numDelims (col_number + 1) cs).2.1 found_instruction
          found_directive (read_to_chars numDelims (col_number + 1) cs).2.2
        .ok (⟨line_number, col_number, (read_to_chars numDelims (col_number + 1) cs).2.1,
              String.mk (first_char :: (read_to_chars numDelims (col_number + 1) cs).1.getD []),
              .Decimal (String.mk (first_char :: (read_to_chars numDelims (col_number + 1) cs).1.getD []))⟩ :: ts)
    else if first_char == '[' then do
      let ts ← tokenize_line line_number (col_number + 1) found_instruction
        found_directive cs
      .ok (⟨line_number, col_number, col_number + 1, String.mk [first_char],
            .OpenBracket⟩ :: ts)
    else if first_char == ']' then do
      let ts ← tokenize_line line_number (col_number + 1) found_instruction
        found_directive cs
      .ok (⟨line_number, col_number, col_number + 1, String.mk [first_char],
            .CloseBracket⟩ :: ts)
    else if first_char == '(' then do
      let ts ← tokenize_line line_number (col_number + 1) found_instruction
        found_directive cs
      .ok (⟨line_number, col_number, col_number + 1, String.mk [first_char],
            .OpenParenthesis⟩ :: ts)
    else if first_char == ')' then do
      let ts ← tokenize_line line_number (col_number + 1) found_instruction
        found_directive cs
      .ok (⟨line_number, col_number, col_number + 1, String.mk [first_char],
            .CloseParenthesis⟩ :: ts)
    else
      .error (.reported ("Unexpected value \x27" ++ String.mk [first_char] ++
        "\x27 at start of token") line_number col_number (col_number + 1))
termination_by _ _ _ chars => chars.length
decreasing_by
  all_goals simp only [List.length_cons]
  all_goals
    first
    | omega
    | (have h1 := read_to_chars_rest_sublen identDelims (col_number + 1) cs
       omega)
    | (have h1 := read_to_chars_rest_sublen numDelims (col_number + 1) cs
       omega)
    | (have h1 := read_to_char_inclusive_rest_sublen '"' (col_number + 1) cs
       omega)

/-- Outer loop of `tokenize_lines` in `src/token.rs`, carrying the current
line index.  The Rust loop skips an empty line explicitly; that case is
subsumed by `tokenize_line` returning no tokens on an empty character list. -/
def tokenize_lines_go (line_number : Nat) :
    List String → Except Failure (List Token)
  | [] => .ok []
  | l :: ls => do
    let ts ← tokenize_line line_number 0 false false l.data
    let rest ← tokenize_lines_go (line_number + 1) ls
    .ok (ts ++ rest)

/-- tokenize_lines from `src/token.rs`: lex every line, numbering lines from
zero, and concatenate the tokens in order. -/
def tokenize_lines (lines : List String) : Except Failure (List Token) :=
  tokenize_lines_go 0 lines

/-- Register from `src/parse.rs`. -/
inductive Register where
  | AX | BX | CX | DX | EX
  | EAX | EBX | ECX | EDX | EEX
deriving DecidableEq, Repr

/-- Register::from_name from `src/parse.rs`: case-insensitive lookup.  Rust
lowercases with `str::to_lowercase`; this model lowercases per character,
which coincides with it on ASCII, and every register name reaching this
function was validated by the lexer against `^[a-zA-Z0-9_]*$` and is
therefore ASCII. -/
def Register.from_name (name : String) : Option Register :=
  let lower := name.data.map Char.toLower
  if lower = ['a', 'x'] then some .AX
  else if lower = ['b', 'x'] then some .BX
  else if lower = ['c', 'x'] then some .CX
  else if lower = ['d', 'x'] then some .DX
  else if lower = ['e', 'x'] then some .EX
  else if lower = ['e', 'a', 'x'] then some .EAX
  else if lower = ['e', 'b', 'x'] then some .EBX
  else if lower = ['e', 'c', 'x'] then some .ECX
  else if lower = ['e', 'd', 'x'] then some .EDX
  else if lower = ['e', 'e', 'x'] then some .EEX
  else none

/-- ConstantLabelType from `src/parse.rs`. -/
inductive ConstantLabelType where
  | StringLiteral (s : String)
  | Word (value : Nat)
deriving DecidableEq, Repr

/-- ConstantLabel from `src/parse.rs`. -/
structure ConstantLabel where
  name : String
  constants : List ConstantLabelType
deriving DecidableEq, Repr

/-- DataSection from `src/parse.rs`. -/
structure DataSection where
  labels : List ConstantLabel
deriving DecidableEq, Repr

/-- InstructionArgumentType from `src/parse.rs`. -/
inductive InstructionArgumentType where
  | Immediate (value : Nat)
  | MemoryAddress (value : Nat)
  | MemoryAddressIndirect (value : Nat)
  | LabelAddress (name : String)
  | LabelValue (name : String)
  | Register (register : Register)
deriving DecidableEq, Repr

mutual
/-- Instruction from `src/parse.rs`: the closed, mnemonic-tagged variant set.
The `jmp_Label` and `jsr` payloads reference `SubroutineLabel`, wholesale as
in the Rust enum (those variants are never constructed by the parser, whose
`todo!` arm models every unimplemented mnemonic). -/
inductive Instruction where
  | nop
  | mov_RegisterToMemory (address : Nat) (register : Register)
  | mov_MemoryToRegister (register : Register) (address : Nat)
  | mov_ImmediateToRegister (register : Register) (immediate : Nat)
  | mov_RegisterToRegister (dest src : Register)
  | mov_ImmediateToMemory8 (address : Nat) (immediate : Nat)
  | mov_ImmediateToMemory16 (address : Nat) (immediate : Nat)
  | add_RegisterToAccumulator (register : Register)
  | add_ImmediateToAccumulator (immediate : Nat)
  | add_RegisterToRegister (dest src : Register)
  | add_ImmediateToRegister (register : Register) (immediate : Nat)
  | inc_Accumulator
  | dec_Accumulator
  | inc_Register (register : Register)
  | dec_Register (register : Register)
  | jmp_Immediate (address : Nat)
  | jmp_Register (register : Register)
  | jmp_Memory (address : Nat)
  | jmp_Label (label : SubroutineLabel)
  | jsr (label : SubroutineLabel)
  | ret
  | syscall
  | ssc (value : Nat)
  | push_Immediate (value : Nat)
  | push_Memory (address : Nat)
  | push_Register (register : Register)
  | pop_Memory (address : Nat)
  | pop_Register (register : Register)

/-- SubroutineLabel from `src/parse.rs`. -/
inductive SubroutineLabel where
  | mk (name : String) (instructions : List Instruction)
end

/-- Name of a subroutine label. -/
def SubroutineLabel.name : SubroutineLabel → String
  | .mk n _ => n

/-- Instruction list of a subroutine label. -/
def SubroutineLabel.instructions : SubroutineLabel → List Instruction
  | .mk _ l => l

/-- TextSection from `src/parse.rs`. -/
structure TextSection where
  labels : List SubroutineLabel

/-- Program from `src/parse.rs`. -/
structure Program where
  text : Option TextSection
  data : Option DataSection

/-- Section-boundary test of `read_tokens_to_label_or_eos` in `src/parse.rs`:
a `data`/`text` directive or any label stops the run. -/
def is_label_or_eos (t : Token) : Bool :=
  match t.token_type with
  | .Directive name => name == "text" || name == "data"
  | .Label _ => true
  | _ => false

/-- read_tokens_to_label_or_eos from `src/parse.rs`: split off the front run
of tokens up to (excluding) the next label or section directive. -/
def read_tokens_to_label_or_eos : List Token → List Token × List Token
  | [] => ([], [])
  | t :: ts =>
    if is_label_or_eos t then ([], t :: ts)
    else
      let (run, rest) := read_tokens_to_label_or_eos ts
      (t :: run, rest)

theorem read_tokens_to_label_or_eos_append (l : List Token) :
    (read_tokens_to_label_or_eos l).1 ++ (read_tokens_to_label_or_eos l).2 = l := by
  induction l with
  | nil => simp [read_tokens_to_label_or_eos]
  | cons t ts ih =>
    simp only [read_tokens_to_label_or_eos]
    by_cases hb : is_label_or_eos t
    · simp [hb]
    · simp only [hb, Bool.false_eq_true, if_false]
      cases hgo : read_tokens_to_label_or_eos ts with
      | mk run rest =>
        simp only [hgo] at ih ⊢
        simpa using ih

theorem read_tokens_to_label_or_eos_eq_len {l run rest : List Token}
    (h : read_tokens_to_label_or_eos l = (run, rest)) :
    run.length + rest.length = l.length := by
  have ha := read_tokens_to_label_or_eos_append l
  rw [h] at ha
  rw [← ha]
  simp [List.length_append]

/-- Same-line collection loop of `read_tokens_to_eol` in `src/parse.rs`:
gather the tokens whose `line_number` equals that of the first token of the
group. -/
def take_line (ln : Nat) : List Token → List Token × List Token
  | [] => ([], [])
  | t :: ts =>
    if t.line_number == ln then
      let (a, b) := take_line ln ts
      (t :: a, b)
    else ([], t :: ts)

theorem take_line_append (ln : Nat) (l : List Token) :
    (take_line ln l).1 ++ (take_line ln l).2 = l := by
  induction l with
  | nil => simp [take_line]
  | cons t ts ih =>
    simp only [take_line]
    by_cases hb : t.line_number == ln
    · simp only [hb, if_true]
      cases hgo : take_line ln ts with
      | mk a b =>
        simp only [hgo] at ih ⊢
        simpa using ih
    · simp [hb]

theorem take_line_eq_len {ln : Nat} {l a b : List Token}
    (h : take_line ln l = (a, b)) : a.length + b.length = l.length := by
  have ha := take_line_append ln l
  rw [h] at ha
  rw [← ha]
  simp [List.length_append]

theorem read_tokens_to_label_or_eos_len (l : List Token) :
    (read_tokens_to_label_or_eos l).1.length +
      (read_tokens_to_label_or_eos l).2.length = l.length := by
  have ha := read_tokens_to_label_or_eos_append l
  calc (read_tokens_to_label_or_eos l).1.length +
      (read_tokens_to_label_or_eos l).2.length
      = ((read_tokens_to_label_or_eos l).1 ++
          (read_tokens_to_label_or_eos l).2).length := by
        simp [List.length_append]
    _ = l.length := by rw [ha]

theorem take_line_len (ln : Nat) (l : List Token) :
    (take_line ln l).1.length + (take_line ln l).2.length = l.length := by
  have ha := take_line_append ln l
  calc (take_line ln l).1.length + (take_line ln l).2.length
      = ((take_line ln l).1 ++ (take_line ln l).2).length := by
        simp [List.length_append]
    _ = l.length := by rw [ha]

/-- read_tokens_to_eol from `src/parse.rs`: pop the first token of a group
and every following token on the same source line. -/
def read_tokens_to_eol : List Token → List Token × List Token
  | [] => ([], [])
  | first_token :: ts =>
    let (same, rest) := take_line first_token.line_number ts
    (first_token :: same, rest)

/-- Message of the bad-comma error in `split_tokens_by_commas`. -/
def sepErrMsg : String := "Unexpected argument separator `,`!"

/-- Loop of `split_tokens_by_commas` in `src/parse.rs`, carrying the group
being accumulated (`current_argument`).  At a comma the current group must be
non-empty and more tokens must follow; at the end a non-empty open group is
appended. -/
def split_tokens_by_commas_go (current_argument : List Token) :
    List Token → Except Failure (List (List Token))
  | [] => .ok (if current_argument.isEmpty then [] else [current_argument])
  | t :: ts =>
    match t.token_type with
    | .Comma =>
      if current_argument.isEmpty || ts.isEmpty then
        .error (.reported sepErrMsg t.line_number t.column_start t.column_end)
      else do
        let rest ← split_tokens_by_commas_go [] ts
        .ok (current_argument :: rest)
    | _ => split_tokens_by_commas_go (current_argument ++ [t]) ts

/-- split_tokens_by_commas from `src/parse.rs`. -/
def split_tokens_by_commas (tokens : List Token) :
    Except Failure (List (List Token)) :=
  split_tokens_by_commas_go [] tokens

/-- InstructionArgumentType::parse from `src/parse.rs`: parse one
comma-separated token group into an argument.  The Rust function `assert!`s
that the group is non-empty; the empty case is modelled as the corresponding
panic. -/
def InstructionArgumentType.parse (tokens : List Token) :
    Except Failure InstructionArgumentType :=
  match tokens with
  | [] =>
    .error (.panicked
      "Vec passed to InstructionArgumentType parser should contain at least one token")
  | first_token :: tokens =>
    match first_token.token_type with
    | .Binary _ | .Decimal _ | .Hex _ => do
      let value ← first_token.parse_u16
      match tokens with
      | illegal_token :: _ =>
        .error (.reported ("Unexpected token `" ++ illegal_token.value ++
          "` after number literal!") illegal_token.line_number
          illegal_token.column_start illegal_token.column_end)
      | [] => .ok (.MemoryAddress value)
    | .Immediate =>
      match tokens with
      | [] =>
        .error (.reported "Expected number literal after immediate specifier `#`!"
          first_token.line_number first_token.column_start first_token.column_end)
      | number_token :: tokens =>
        match number_token.token_type with
        | .Binary _ | .Decimal _ | .Hex _ => do
          let value ← number_token.parse_u16
          match tokens with
          | illegal_token :: _ =>
            .error (.reported ("Unexpected token `" ++ illegal_token.value ++
              "` after immediate number literal!") illegal_token.line_number
              illegal_token.column_start illegal_token.column_end)
          | [] => .ok (.Immediate value)
        | _ =>
          .error (.reported ("Unexpected token `" ++ number_token.value ++
            "` after immediate specifier!") number_token.line_number
            number_token.column_start number_token.column_end)
    | .OpenParenthesis =>
      match tokens with
      | [] =>
        .error (.reported "Expected memory address after opening parenthesis `(`!"
          first_token.line_number first_token.column_start first_token.column_end)
      | address_token :: tokens => do
        let address ←
          match address_token.token_type with
          | .Binary _ | .Decimal _ | .Hex _ => address_token.parse_u16
          | _ =>
            .error (.reported ("Unexpected token `" ++ address_token.value ++
              "` after opening parenthesis!") address_token.line_number
              address_token.column_start address_token.column_end)
        match tokens with
        | [] =>
          .error (.reported "Expected closing parenthesis after memory address!"
            address_token.line_number address_token.column_start
            address_token.column_end)
        | close_token :: tokens =>
          match close_token.token_type with
          | .CloseParenthesis =>
            match tokens with
            | illegal_token :: _ =>
              .error (.reported ("Unexpected token `" ++ illegal_token.value ++
                "` after indirect memory address!") illegal_token.line_number
                illegal_token.column_start illegal_token.column_end)
            | [] => .ok (.MemoryAddressIndirect address)
          | _ =>
            .error (.reported ("Unexpected token `" ++ close_token.value ++
              "` after memory address! Expected closing parenthesis!")
              close_token.line_number close_token.column_start
              close_token.column_end)
    | .Identifier value =>
      match tokens with
      | illegal_token :: _ =>
        .error (.reported ("Unexpected token `" ++ illegal_token.value ++
          "` after label identifier!") illegal_token.line_number
          illegal_token.column_start illegal_token.column_end)
      | [] => .ok (.LabelAddress value)
    | .OpenBracket =>
      match tokens with
      | [] =>
        .error (.reported "Expected label identifier after opening bracket `[`!"
          first_token.line_number first_token.column_start first_token.column_end)
      | identifier_token :: tokens =>
        match identifier_token.token_type with
        | .Identifier identifier_name =>
          match tokens with
          | [] =>
            .error (.reported "Expected closing bracket after label identifier!"
              identifier_token.line_number identifier_token.column_start
              identifier_token.column_end)
          | close_token :: tokens =>
            match close_token.token_type with
            | .CloseBracket =>
              match tokens with
              | illegal_token :: _ =>
                .error (.reported ("Unexpected token `" ++ illegal_token.value ++
                  "` after label dereference!") illegal_token.line_number
                  illegal_token.column_start illegal_token.column_end)
              | [] => .ok (.LabelValue identifier_name)
            | _ =>
              .error (.reported ("Unexpected token `" ++ close_token.value ++
                "` after label identifier! Expected closing bracket!")
                close_token.line_number close_token.column_start
                close_token.column_end)
        | _ =>
          .error (.reported ("Unexpected token `" ++ identifier_token.value ++
            "` after opening bracket! Expected label identifier!")
            identifier_token.line_number identifier_token.column_start
            identifier_token.column_end)
    | .Register name =>
      match tokens with
      | illegal_token :: _ =>
        .error (.reported ("Unexpected token `" ++ illegal_token.value ++
          "` after register name!") illegal_token.line_number
          illegal_token.column_start illegal_token.column_end)
      | [] =>
        match Register.from_name name with
        | none =>
          .error (.reported ("Register name `" ++ name ++ "` is invalid!")
            first_token.line_number first_token.column_start
            first_token.column_end)
        | some register => .ok (.Register register)
    | _ =>
      .error (.reported ("Unexpected token `" ++ first_token.value ++
        "` in argument list!") first_token.line_number
        first_token.column_start first_token.column_end)

/-- Loop of the `InstructionArguments` parse impl in `src/parse.rs`: parse
each comma-separated group in order. -/
def parse_arguments_go :
    List (List Token) → Except Failure (List InstructionArgumentType)
  | [] => .ok []
  | arg :: args => do
    let a ← InstructionArgumentType.parse arg
    let rest ← parse_arguments_go args
    .ok (a :: rest)

/-- InstructionArguments::parse from `src/parse.rs`: split the line tokens on
commas, then parse each group. -/
def parse_instruction_arguments (argument_tokens : List Token) :
    Except Failure (List InstructionArgumentType) := do
  let args ← split_tokens_by_commas argument_tokens
  parse_arguments_go args

/-- Overload-resolution error message of `Instruction::parse`. -/
def overloadMsg (instruction_mnemonic : String) : String :=
  "Could not find valid overload of `" ++ instruction_mnemonic ++
    "` instruction for supplied argument types"

/-- Instruction::parse from `src/parse.rs`: dispatch on the mnemonic, check
the arity, then match the argument tuple against the supported shapes.  The
`todo!` arm for unimplemented mnemonics is modelled as the corresponding
panic. -/
def Instruction.parse (instruction_mnemonic : String)
    (instruction_arguments : List InstructionArgumentType)
    (line_number col_start col_end : Nat) : Except Failure Instruction :=
  let num_args := instruction_arguments.length
  if instruction_mnemonic == "nop" then
    match instruction_arguments with
    | [] => .ok .nop
    | _ =>
      .error (.reported ("`" ++ instruction_mnemonic ++
        "` instruction expects 0 arguments, but got " ++ toString num_args)
        line_number col_start col_end)
  else if instruction_mnemonic == "mov" then
    match instruction_arguments with
    | [arg1, arg2] =>
      match arg1, arg2 with
      | .MemoryAddress address, .Register register =>
        .ok (.mov_RegisterToMemory address register)
      | .Register register, .MemoryAddress address =>
        .ok (.mov_MemoryToRegister register address)
      | .Register register, .Immediate immediate =>
        .ok (.mov_ImmediateToRegister register immediate)
      | .Register dest_register, .Register src_register =>
        .ok (.mov_RegisterToRegister dest_register src_register)
      | .MemoryAddress address, .Immediate immediate_16 =>
        .ok (.mov_ImmediateToMemory16 address immediate_16)
      | _, _ =>
        .error (.reported (overloadMsg instruction_mnemonic)
          line_number col_start col_end)
    | _ =>
      .error (.reported ("`" ++ instruction_mnemonic ++
        "` instruction expects 2 arguments, but got " ++ toString num_args)
        line_number col_start col_end)
  else if instruction_mnemonic == "add" then
    match instruction_arguments with
    | [arg] =>
      match arg with
      | .Register register => .ok (.add_RegisterToAccumulator register)
      | .Immediate immediate => .ok (.add_ImmediateToAccumulator immediate)
      | _ =>
        .error (.reported (overloadMsg instruction_mnemonic)
          line_number col_start col_end)
    | [arg1, arg2] =>
      match arg1, arg2 with
      | .Register dest_register, .Register src_register =>
        .ok (.add_RegisterToRegister dest_register src_register)
      | .Register register, .Immediate immediate =>
        .ok (.add_ImmediateToRegister register immediate)
      | _, _ =>
        .error (.reported (overloadMsg instruction_mnemonic)
          line_number col_start col_end)
    | _ =>
      .error (.reported ("`" ++ instruction_mnemonic ++
        "` instruction expects 1 or 2 arguments, but got " ++ toString num_args)
        line_number col_start col_end)
  else
    .error (.panicked ("not yet implemented: Instruction `" ++
      instruction_mnemonic ++ "` not implemented"))

/-- Constant-pair loop inside `DataSection::parse` in `src/parse.rs`: consume
the label body two tokens at a time (`.ascii` string or `.word` number); a
single leftover token is an error. -/
def parse_constant_run : List Token → Except Failure (List ConstantLabelType)
  | [] => .ok []
  | [token] =>
    .error (.reported "Expected at least 2 tokens in constant."
      token.line_number token.column_start token.column_end)
  | directive_token :: constant_token :: rest =>
    match directive_token.token_type with
    | .Directive directive =>
      if directive == "ascii" then
        match constant_token.token_type with
        | .AsciiString string => do
          let ks ← parse_constant_run rest
          .ok (.StringLiteral string :: ks)
        | _ =>
          .error (.reported "Expected string literal after .ascii directive!"
            constant_token.line_number constant_token.column_start
            constant_token.column_end)
      else if directive == "word" then
        match constant_token.token_type with
        | .Binary value => do
          let bin_value ← radix_word_u16 2 binOverflowMsg constant_token value
          let ks ← parse_constant_run rest
          .ok (.Word bin_value :: ks)
        | .Decimal value => do
          let dec_value ← radix_word_u16 10 decOverflowMsg constant_token value
          let ks ← parse_constant_run rest
          .ok (.Word dec_value :: ks)
        | .Hex value => do
          let hex_value ← radix_word_u16 16 hexOverflowMsg constant_token value
          let ks ← parse_constant_run rest
          .ok (.Word hex_value :: ks)
        | .Immediate =>
          .error (.reported
            "The .word directive does not require an immediate `#` marker!"
            constant_token.line_number constant_token.column_start
            constant_token.column_end)
        | _ =>
          .error (.reported "Expected a number literal after .word directive!"
            constant_token.line_number constant_token.column_start
            constant_token.column_end)
      else
        .error (.reported ("Unknown constant directive `." ++ directive ++ "`!")
          directive_token.line_number directive_token.column_start
          directive_token.column_end)
    | _ =>
      .error (.reported "First token in a constant must be a directive!"
        directive_token.line_number directive_token.column_start
        directive_token.column_end)

/-- Label loop of `DataSection::parse` in `src/parse.rs`: returns the parsed
constant labels and the remaining token queue (a terminating `data`/`text`
directive is pushed back, i.e. left at the front of the remainder). -/
def DataSection.parse_go :
    List Token → Except Failure (List ConstantLabel × List Token)
  | [] => .ok ([], [])
  | first_token :: tokens =>
    match first_token.token_type with
    | .Directive name =>
      if name == "data" || name == "text" then
        .ok ([], first_token :: tokens)
      else
        .error (.reported ("Illegal directive token `." ++ name ++ "`")
          first_token.line_number first_token.column_start
          first_token.column_end)
    | .Label label_name =>
      let r := read_tokens_to_label_or_eos tokens
      if r.1.length == 0 then
        .error (.reported ("Label `" ++ label_name ++ "` cannot be empty!")
          first_token.line_number first_token.column_start
          first_token.column_end)
      else do
        let constants ← parse_constant_run r.1
        let (labels, rest2) ← DataSection.parse_go r.2
        .ok (⟨label_name, constants⟩ :: labels, rest2)
    | _ =>
      .error (.reported ("Unexpected token `" ++ first_token.value ++
        "` in data section.") first_token.line_number
        first_token.column_start first_token.column_end)
termination_by tokens => tokens.length
decreasing_by
  have h1 := read_tokens_to_label_or_eos_len ts
  simp only [List.length_cons]
  omega

/-- DataSection::parse from `src/parse.rs`. -/
def DataSection.parse (tokens : List Token) :
    Except Failure (DataSection × List Token) := do
  let (labels, rest) ← DataSection.parse_go tokens
  .ok (⟨labels⟩, rest)

/-- Per-line loop inside `TextSection::parse` in `src/parse.rs`: repeatedly
take one line-group (`read_tokens_to_eol`, inlined via `take_line` so that
the group is visibly non-empty), require its first token to be an
instruction, parse the remainder of the group as the argument list, and
resolve the instruction. -/
def parse_subroutine_lines : List Token → Except Failure (List Instruction)
  | [] => .ok []
  | first_line_token :: ts =>
    let p := take_line first_line_token.line_number ts
    let col_end :=
      ((first_line_token :: p.1).getLastD first_line_token).column_end
    match first_line_token.token_type with
    | .Instruction instruction_mnemonic => do
      let instruction_arguments ← parse_instruction_arguments p.1
      let instruction ← Instruction.parse instruction_mnemonic
        instruction_arguments first_line_token.line_number
        first_line_token.column_start col_end
      let rest_instructions ← parse_subroutine_lines p.2
      .ok (instruction :: rest_instructions)
    | _ =>
      .error (.reported "Lines inside a subroutine must start with an instruction"
        first_line_token.line_number first_line_token.column_start
        first_line_token.column_end)
termination_by tokens => tokens.length
decreasing_by
  have h1 := take_line_len t.line_number ts
  simp only [List.length_cons]
  omega

/-- Label loop of `TextSection::parse` in `src/parse.rs`: returns the parsed
subroutine labels and the remaining token queue (a terminating `data`/`text`
directive is pushed back, i.e. left at the front of the remainder). -/
def TextSection.parse_go :
    List Token → Except Failure (List SubroutineLabel × List Token)
  | [] => .ok ([], [])
  | first_token :: tokens =>
    match first_token.token_type with
    | .Directive name =>
      if name == "data" || name == "text" then
        .ok ([], first_token :: tokens)
      else
        .error (.reported ("Illegal directive token `." ++ name ++ "`")
          first_token.line_number first_token.column_start
          first_token.column_end)
    | .Label label_name =>
      let r := read_tokens_to_label_or_eos tokens
      if r.1.length == 0 then
        .error (.reported ("Label `" ++ label_name ++ "` cannot be empty!")
          first_token.line_number first_token.column_start
          first_token.column_end)
      else do
        let instructions ← parse_subroutine_lines r.1
        let (labels, rest2) ← TextSection.parse_go r.2
        .ok (.mk label_name instructions :: labels, rest2)
    | _ =>
      .error (.reported ("Unexpected token `" ++ first_token.value ++
        "` in text section.") first_token.line_number
        first_token.column_start first_token.column_end)
termination_by tokens => tokens.length
decreasing_by
  have h1 := read_tokens_to_label_or_eos_len ts
  simp only [List.length_cons]
  omega

/-- TextSection::parse from `src/parse.rs`. -/
def TextSection.parse (tokens : List Token) :
    Except Failure (TextSection × List Token) := do
  let (labels, rest) ← TextSection.parse_go tokens
  .ok (⟨labels⟩, rest)

theorem dataSection_parse_go_len :
    ∀ ts labels rest, DataSection.parse_go ts = .ok (labels, rest) →
      rest.length ≤ ts.length := by
  intro ts
  induction ts using DataSection.parse_go.induct with
  | case1 =>
    intro labels rest h
    simp only [DataSection.parse_go] at h
    cases h
    simp
  | case2 t ts name hname htest =>
    intro labels rest h
    simp only [DataSection.parse_go, hname, htest, if_true] at h
    cases h
    simp
  | case3 t ts name hname htest =>
    intro labels rest h
    simp only [DataSection.parse_go, hname, htest, if_false] at h
    exact Except.noConfusion h
  | case4 t ts name hname r hempty =>
    intro labels rest h
    have he : ((read_tokens_to_label_or_eos ts).1.length == 0) = true := hempty
    simp only [DataSection.parse_go, hname, he, if_true] at h
    exact Except.noConfusion h
  | case5 t ts name hname r hempty ih =>
    intro labels rest h
    have he : ¬((read_tokens_to_label_or_eos ts).1.length == 0) = true := hempty
    simp only [DataSection.parse_go, hname, he, if_false] at h
    have hsplit := read_tokens_to_label_or_eos_len ts
    cases hc : parse_constant_run (read_tokens_to_label_or_eos ts).1 with
    | error e =>
      rw [hc, except_bind_error] at h
      exact Except.noConfusion h
    | ok constants =>
      rw [hc, except_bind_ok] at h
      cases hg : DataSection.parse_go (read_tokens_to_label_or_eos ts).2 with
      | error e =>
        rw [hg, except_bind_error] at h
        exact Except.noConfusion h
      | ok p =>
        rw [hg, except_bind_ok] at h
        obtain ⟨labels1, rest2⟩ := p
        simp at h
        obtain ⟨-, hrest⟩ := h
        have hih := ih labels1 rest2 hg
        have hrdef : r = read_tokens_to_label_or_eos ts := rfl
        rw [hrdef] at hih
        subst hrest
        simp only [List.length_cons]
        omega
  | case6 t ts h1 h2 =>
    intro labels rest h
    simp only [DataSection.parse_go] at h
    exact Except.noConfusion h

theorem textSection_parse_go_len :
    ∀ ts labels rest, TextSection.parse_go ts = .ok (labels, rest) →
      rest.length ≤ ts.length := by
  intro ts
  induction ts using TextSection.parse_go.induct with
  | case1 =>
    intro labels rest h
    simp only [TextSection.parse_go] at h
    cases h
    simp
  | case2 t ts name hname htest =>
    intro labels rest h
    simp only [TextSection.parse_go, hname, htest, if_true] at h
    cases h
    simp
  | case3 t ts name hname htest =>
    intro labels rest h
    simp only [TextSection.parse_go, hname, htest, if_false] at h
    exact Except.noConfusion h
  | case4 t ts name hname r hempty =>
    intro labels rest h
    have he : ((read_tokens_to_label_or_eos ts).1.length == 0) = true := hempty
    simp only [TextSection.parse_go, hname, he, if_true] at h
    exact Except.noConfusion h
  | case5 t ts name hname r hempty ih =>
    intro labels rest h
    have he : ¬((read_tokens_to_label_or_eos ts).1.length == 0) = true := hempty
    simp only [TextSection.parse_go, hname, he, if_false] at h
    have hsplit := read_tokens_to_label_or_eos_len ts
    cases hc : parse_subroutine_lines (read_tokens_to_label_or_eos ts).1 with
    | error e =>
      rw [hc, except_bind_error] at h
      exact Except.noConfusion h
    | ok instructions =>
      rw [hc, except_bind_ok] at h
      cases hg : TextSection.parse_go (read_tokens_to_label_or_eos ts).2 with
      | error e =>
        rw [hg, except_bind_error] at h
        exact Except.noConfusion h
      | ok p =>
        rw [hg, except_bind_ok] at h
        obtain ⟨labels1, rest2⟩ := p
        simp at h
        obtain ⟨-, hrest⟩ := h
        have hih := ih labels1 rest2 hg
        have hrdef : r = read_tokens_to_label_or_eos ts := rfl
        rw [hrdef] at hih
        subst hrest
        simp only [List.length_cons]
        omega
  | case6 t ts h1 h2 =>
    intro labels rest h
    simp only [TextSection.parse_go] at h
    exact Except.noConfusion h

theorem dataSection_parse_len {ts : List Token} {sec : DataSection}
    {rest : List Token} (h : DataSection.parse ts = .ok (sec, rest)) :
    rest.length ≤ ts.length := by
  unfold DataSection.parse at h
  cases hg : DataSection.parse_go ts with
  | error e =>
    rw [hg, except_bind_error] at h
    exact Except.noConfusion h
  | ok p =>
    obtain ⟨labels, rest1⟩ := p
    rw [hg, except_bind_ok] at h
    simp at h
    obtain ⟨-, hrest⟩ := h
    exact hrest ▸ dataSection_parse_go_len ts labels rest1 hg

theorem textSection_parse_len {ts : List Token} {sec : TextSection}
    {rest : List Token} (h : TextSection.parse ts = .ok (sec, rest)) :
    rest.length ≤ ts.length := by
  unfold TextSection.parse at h
  cases hg : TextSection.parse_go ts with
  | error e =>
    rw [hg, except_bind_error] at h
    exact Except.noConfusion h
  | ok p =>
    obtain ⟨labels, rest1⟩ := p
    rw [hg, except_bind_ok] at h
    simp at h
    obtain ⟨-, hrest⟩ := h
    exact hrest ▸ textSection_parse_go_len ts labels rest1 hg

/-- Top-level loop of `build_program` in `src/parse.rs`, carrying the program
built so far.  The loop pops the front token, which must be a `data`/`text`
directive not seen before, and hands the rest of the queue to the matching
section parser, continuing on the queue that parser returns (with one token
of lookahead pushed back).  The Rust loop runs while the queue is non-empty
and, as `build_program_measure_decreases` proves, the queue shrinks across
every iteration; the recursion here is justified by the simpler observation
that each recursive call fills a previously empty section slot, of which
there are two. -/
def build_program_go (ast : Program) :
    List Token → Except Failure Program
  | [] => .ok ast
  | token :: tokens =>
    match token.token_type with
    | .Directive name =>
      if name == "data" then
        match hdata : ast.data with
        | none =>
          match DataSection.parse tokens with
          | .ok (sec, rest) =>
            build_program_go { ast with data := some sec } rest
          | .error e => .error e
        | some _ =>
          .error (.reported "Duplicate section \x27.data\x27"
            token.line_number token.column_start token.column_end)
      else if name == "text" then
        match htext : ast.text with
        | none =>
          match TextSection.parse tokens with
          | .ok (sec, rest) =>
            build_program_go { ast with text := some sec } rest
          | .error e => .error e
        | some _ =>
          .error (.reported "Duplicate section \x27.text\x27"
            token.line_number token.column_start token.column_end)
      else
        .error (.reported
          "Expected program to start with either .data or .text section!"
          token.line_number token.column_start token.column_end)
    | _ =>
      .error (.reported ("Unexpected token `" ++ token.value ++
        "`. Program should start with either .data or .text section directive!")
        token.line_number token.column_start token.column_end)
termination_by tokens => ast.data.isNone.toNat + ast.text.isNone.toNat
decreasing_by
  · simp [hdata]
  · simp [htext]

/-- build_program from `src/parse.rs`: starts from `Program::new()` (both
sections absent). -/
def build_program (tokens : List Token) : Except Failure Program :=
  build_program_go ⟨none, none⟩ tokens

/-- Full front-end pipeline described by the spec: split into lines is done by
the external loader, then the lexer and the parser run in sequence. -/
def parse_program (lines : List String) : Except Failure Program := do
  let tokens ← tokenize_lines lines
  build_program tokens

/-- Numeric value denoted by a digit string (Horner evaluation, the same fold
`from_str_radix_go` computes when nothing overflows). -/
def digits_value (radix acc : Nat) : List Char → Nat
  | [] => acc
  | c :: cs => digits_value radix (acc * radix + (char_to_digit c radix).getD 0) cs

theorem digits_value_mono (radix : Nat) (h1 : 1 ≤ radix) (cs : List Char) :
    ∀ acc, acc ≤ digits_value radix acc cs := by
  induction cs with
  | nil => intro acc; simp [digits_value]
  | cons c cs ih =>
    intro acc
    have h2 := ih (acc * radix + (char_to_digit c radix).getD 0)
    have h3 : acc * 1 ≤ acc * radix := Nat.mul_le_mul_left acc h1
    simp only [digits_value]
    omega

theorem from_str_radix_go_spec (radix : Nat) (h1 : 1 ≤ radix) (cs : List Char) :
    ∀ acc, (∀ c ∈ cs, (char_to_digit c radix).isSome) → acc ≤ 65535 →
      from_str_radix_go radix cs acc =
        if digits_value radix acc cs ≤ 65535 then .ok (digits_value radix acc cs)
        else .error .PosOverflow := by
  induction cs with
  | nil =>
    intro acc hv hacc
    simp [from_str_radix_go, digits_value, hacc]
  | cons c cs ih =>
    intro acc hv hacc
    obtain ⟨d, hd⟩ := Option.isSome_iff_exists.mp (hv c (by simp))
    have hval : digits_value radix acc (c :: cs) =
        digits_value radix (acc * radix + d) cs := by
      simp [digits_value, hd]
    simp only [from_str_radix_go, hd]
    by_cases hov : 65535 < acc * radix + d
    · rw [if_pos hov, hval]
      have hmono := digits_value_mono radix h1 cs (acc * radix + d)
      rw [if_neg (by omega)]
    · rw [if_neg hov, hval]
      exact ih (acc * radix + d) (fun x hx => hv x (by simp [hx])) (by omega)

theorem char_to_digit_plus (radix : Nat) : char_to_digit '+' radix = none := by
  simp [char_to_digit]

theorem char_to_digit_minus (radix : Nat) : char_to_digit '-' radix = none := by
  simp [char_to_digit]

theorem from_str_radix_u16_valid (radix : Nat) (s : String) (h1 : 1 ≤ radix)
    (hne : s.data ≠ []) (hv : ∀ c ∈ s.data, (char_to_digit c radix).isSome) :
    from_str_radix_u16 radix s =
      if digits_value radix 0 s.data ≤ 65535 then .ok (digits_value radix 0 s.data)
      else .error .PosOverflow := by
  unfold from_str_radix_u16
  split
  · rename_i heq
    exact absurd heq hne
  · rename_i heq
    have := hv '+' (by rw [heq]; simp)
    rw [char_to_digit_plus] at this
    simp at this
  · rename_i heq
    have := hv '-' (by rw [heq]; simp)
    rw [char_to_digit_minus] at this
    simp at this
  · rename_i rest heq
    have := hv '+' (by rw [heq]; simp)
    rw [char_to_digit_plus] at this
    simp at this
  · exact from_str_radix_go_spec radix h1 s.data 0 hv (by omega)

theorem char_le_iff_toNat {a c : Char} : a ≤ c ↔ a.toNat ≤ c.toNat := by
  simp [Char.le_def, Char.toNat, UInt32.le_def, BitVec.le_def, UInt32.toNat]

theorem char_isDigit_iff_toNat {c : Char} :
    c.isDigit = true ↔ 48 ≤ c.toNat ∧ c.toNat ≤ 57 := by
  simp [Char.isDigit, Char.toNat, UInt32.le_def, BitVec.le_def, UInt32.toNat,
    ge_iff_le]

theorem char_to_digit_isSome_of_digit {c : Char} {radix : Nat}
    (h10 : 10 ≤ radix) (h : c.isDigit = true) :
    (char_to_digit c radix).isSome := by
  obtain ⟨hl, hr⟩ := char_isDigit_iff_toNat.mp h
  simp only [char_to_digit, h, if_true]
  have : c.toNat - 48 < radix := by omega
  simp [this]

theorem chars_binary_valid {l : List Char} (h : chars_binary l = true) :
    ∀ c ∈ l, (char_to_digit c 2).isSome := by
  intro c hc
  simp only [chars_binary, List.all_eq_true] at h
  rcases Bool.or_eq_true_iff.mp (h c hc) with h0 | h1
  · rw [eq_of_beq h0]; decide
  · rw [eq_of_beq h1]; decide

theorem chars_numeric_valid {l : List Char} (h : chars_numeric l = true) :
    ∀ c ∈ l, (char_to_digit c 10).isSome := by
  intro c hc
  simp only [chars_numeric, List.all_eq_true] at h
  exact char_to_digit_isSome_of_digit (by omega) (h c hc)

theorem chars_hex_valid {l : List Char} (h : chars_hex l = true) :
    ∀ c ∈ l, (char_to_digit c 16).isSome := by
  intro c hc
  simp only [chars_hex, List.all_eq_true] at h
  rcases Bool.or_eq_true_iff.mp (h c hc) with hd | hAF
  · rcases Bool.or_eq_true_iff.mp hd with hd | haf
    · exact char_to_digit_isSome_of_digit (by omega) hd
    · obtain ⟨h1, h2⟩ := Bool.and_eq_true_iff.mp haf
      have hl := char_le_iff_toNat.mp (of_decide_eq_true h1)
      have hr := char_le_iff_toNat.mp (of_decide_eq_true h2)
      have ha : ('a').toNat = 97 := rfl
      have hf : ('f').toNat = 102 := rfl
      rw [ha] at hl
      rw [hf] at hr
      have hnd : c.isDigit = false := by
        rw [Bool.eq_false_iff]
        intro hdig
        obtain ⟨-, h57⟩ := char_isDigit_iff_toNat.mp hdig
        omega
      have hlz : ('a' ≤ c && c ≤ 'z') = true := by
        rw [Bool.and_eq_true_iff]
        constructor
        · exact decide_eq_true (char_le_iff_toNat.mpr
            (by rw [show Char.toNat 'a' = 97 from rfl]; omega))
        · exact decide_eq_true (char_le_iff_toNat.mpr
            (by rw [show Char.toNat 'z' = 122 from rfl]; omega))
      simp only [char_to_digit, hnd, hlz, Bool.false_eq_true, if_false, if_true]
      have : c.toNat - 97 + 10 < 16 := by omega
      simp [this]
  · obtain ⟨h1, h2⟩ := Bool.and_eq_true_iff.mp hAF
    have hl := char_le_iff_toNat.mp (of_decide_eq_true h1)
    have hr := char_le_iff_toNat.mp (of_decide_eq_true h2)
    have hA : ('A').toNat = 65 := rfl
    have hF : ('F').toNat = 70 := rfl
    rw [hA] at hl
    rw [hF] at hr
    have hnd : c.isDigit = false := by
      rw [Bool.eq_false_iff]
      intro hdig
      obtain ⟨h48, h57⟩ := char_isDigit_iff_toNat.mp hdig
      omega
    have hnlz : ('a' ≤ c && c ≤ 'z') = false := by
      rw [Bool.eq_false_iff]
      intro hh
      obtain ⟨ha, -⟩ := Bool.and_eq_true_iff.mp hh
      have h97 := char_le_iff_toNat.mp (of_decide_eq_true ha)
      rw [show Char.toNat 'a' = 97 from rfl] at h97
      omega
    have hAZ : ('A' ≤ c && c ≤ 'Z') = true := by
      rw [Bool.and_eq_true_iff]
      constructor
      · exact decide_eq_true (char_le_iff_toNat.mpr
          (by rw [show Char.toNat 'A' = 65 from rfl]; omega))
      · exact decide_eq_true (char_le_iff_toNat.mpr
          (by rw [show Char.toNat 'Z' = 90 from rfl]; omega))
    simp only [char_to_digit, hnd, hnlz, hAZ, Bool.false_eq_true, if_false, if_true]
    have : c.toNat - 65 + 10 < 16 := by omega
    simp [this]

/-- C1: for every numeric literal token (Binary, Decimal or Hex) whose digit
string is a valid non-empty literal of its radix, `Token::parse_u16` returns
exactly the literal value when it is at most 65535, and reports the
radix-specific 16-bit overflow error (naming %1111111111111111, 65535 or
$FFFF respectively) when it exceeds 65535, producing no value.  The `.word`
constant path of `DataSection::parse` runs the textually identical code,
embedded as the shared helper `radix_word_u16` that `parse_constant_run`
calls on the same three token kinds. -/
theorem claim_parse_u16_exact (t : Token) :
    (∀ s, t.token_type = .Binary s → s.data ≠ [] → chars_binary s.data = true →
      (digits_value 2 0 s.data ≤ 65535 →
        t.parse_u16 = .ok (digits_value 2 0 s.data)) ∧
      (65535 < digits_value 2 0 s.data →
        t.parse_u16 = .error (.reported binOverflowMsg
          t.line_number t.column_start t.column_end))) ∧
    (∀ s, t.token_type = .Decimal s → s.data ≠ [] → chars_numeric s.data = true →
      (digits_value 10 0 s.data ≤ 65535 →
        t.parse_u16 = .ok (digits_value 10 0 s.data)) ∧
      (65535 < digits_value 10 0 s.data →
        t.parse_u16 = .error (.reported decOverflowMsg
          t.line_number t.column_start t.column_end))) ∧
    (∀ s, t.token_type = .Hex s → s.data ≠ [] → chars_hex s.data = true →
      (digits_value 16 0 s.data ≤ 65535 →
        t.parse_u16 = .ok (digits_value 16 0 s.data)) ∧
      (65535 < digits_value 16 0 s.data →
        t.parse_u16 = .error (.reported hexOverflowMsg
          t.line_number t.column_start t.column_end))) := by
  refine ⟨fun s htt hne hval => ?_, fun s htt hne hval => ?_, fun s htt hne hval => ?_⟩
  · have hspec := from_str_radix_u16_valid 2 s (by omega) hne (chars_binary_valid hval)
    simp only [Token.parse_u16, htt, radix_word_u16, hspec]
    constructor
    · intro hle
      rw [if_pos hle]
    · intro hgt
      rw [if_neg (by omega)]
  · have hspec := from_str_radix_u16_valid 10 s (by omega) hne (chars_numeric_valid hval)
    simp only [Token.parse_u16, htt, radix_word_u16, hspec]
    constructor
    · intro hle
      rw [if_pos hle]
    · intro hgt
      rw [if_neg (by omega)]
  · have hspec := from_str_radix_u16_valid 16 s (by omega) hne (chars_hex_valid hval)
    simp only [Token.parse_u16, htt, radix_word_u16, hspec]
    constructor
    · intro hle
      rw [if_pos hle]
    · intro hgt
      rw [if_neg (by omega)]

/-- Witness for C1: the binary literal %10 parses to 2, the decimal literal
65536 overflows with the decimal-specific message, and the hex literal FFFF
parses to 65535. -/
theorem claim_parse_u16_exact_witness :
    Token.parse_u16 ⟨0, 0, 3, "%10", .Binary "10"⟩ = .ok 2 ∧
    Token.parse_u16 ⟨1, 2, 7, "65536", .Decimal "65536"⟩ =
      .error (.reported decOverflowMsg 1 2 7) ∧
    Token.parse_u16 ⟨2, 0, 5, "$FFFF", .Hex "FFFF"⟩ = .ok 65535 := by
  refine ⟨?_, ?_, ?_⟩
  · have h := ((claim_parse_u16_exact ⟨0, 0, 3, "%10", .Binary "10"⟩).1 "10"
      rfl (by decide) (by decide)).1 (by decide)
    simpa using h
  · have h := ((claim_parse_u16_exact ⟨1, 2, 7, "65536", .Decimal "65536"⟩).2.1 "65536"
      rfl (by decide) (by decide)).2 (by decide)
    simpa using h
  · have h := ((claim_parse_u16_exact ⟨2, 0, 5, "$FFFF", .Hex "FFFF"⟩).2.2 "FFFF"
      rfl (by decide) (by decide)).1 (by decide)
    simpa using h

/-- Per-line classification discipline of the lexer, as a checkable predicate
on the emitted token kinds: walking the kinds of one line with the running
`found_instruction`/`found_directive` booleans, an Instruction kind may occur
only while both are still false (and sets the first), an Identifier kind only
after one of them is set, and a Directive kind sets the second; all other
kinds leave the state unchanged, exactly mirroring the flag updates in
`tokenize_lines`. -/
def line_class_ok : Bool → Bool → List TokenType → Bool
  | _, _, [] => true
  | fi, fd, k :: ks =>
    match k with
    | .Instruction _ => !fi && !fd && line_class_ok true fd ks
    | .Identifier _ => (fi || fd) && line_class_ok fi fd ks
    | .Directive _ => line_class_ok fi true ks
    | _ => line_class_ok fi fd ks

theorem bind_cons_ok {α : Type} {e : Except Failure (List α)} {tok : α}
    {T : List α}
    (h : (do let ts ← e; Except.ok (tok :: ts)) = .ok T) :
    ∃ ts, e = .ok ts ∧ T = tok :: ts := by
  cases e with
  | error f =>
    rw [except_bind_error] at h
    exact Except.noConfusion h
  | ok ts =>
    rw [except_bind_ok] at h
    cases h
    exact ⟨ts, rfl, rfl⟩

set_option maxHeartbeats 1000000 in
theorem tokenize_line_class (ln : Nat) :
    ∀ col fi fd chars, ∀ T, tokenize_line ln col fi fd chars = .ok T →
      line_class_ok fi fd (T.map Token.token_type) = true := by
  intro col fi fd chars
  induction col, fi, fd, chars using tokenize_line.induct ln
  case case12 cn fi fd fc cs hA hB hC hD hE hF hG ih =>
    intro T h
    simp only [tokenize_line, hA, hB, hC, hD, hE, hF, hG, ite_true, ite_false,
      Bool.false_eq_true, Bool.true_eq_false] at h
    obtain ⟨ts1, hrec, hT⟩ := bind_cons_ok h
    subst hT
    have hcls := ih ts1 hrec
    simp only [List.map_cons, line_class_ok, hcls, Bool.and_true]
    revert hF
    cases fi <;> cases fd <;> simp
  all_goals
    intro T h
  all_goals
    simp only [tokenize_line, *, ite_true, ite_false, Bool.false_eq_true,
      Bool.true_eq_false] at h
  all_goals
    first
    | exact Except.noConfusion h
    | (cases h; rfl)
    | solve_by_elim
    | (obtain ⟨ts1, hrec, hT⟩ := bind_cons_ok h; subst hT;
       simp only [List.map_cons, line_class_ok]; simp_all [line_class_ok])

/-- C3 (amended): on every input line, a bare identifier is lexed as an
Instruction token only while neither an instruction nor a directive token
has yet been emitted on that line (labels do not count), and as an
Identifier token afterwards.  `tokenize_lines` lexes every line exactly as
`tokenize_line` starting at column 0 with both flags false, so the kinds of
every line's token list satisfy `line_class_ok false false`: in particular
an Identifier kind can only appear after an Instruction or Directive kind,
and an Instruction kind never appears after either. -/
theorem claim_line_classification :
    ∀ line_number chars T,
      tokenize_line line_number 0 false false chars = .ok T →
      line_class_ok false false (T.map Token.token_type) = true := by
  intro line_number chars T h
  exact tokenize_line_class line_number 0 false false chars T h

/-- Witness for C3 (amended): the line `mov foo bar` lexes to an Instruction
followed by two Identifiers, and that kind sequence satisfies the
classification predicate. -/
theorem claim_line_classification_witness :
    line_class_ok false false
      [.Instruction "mov", .Identifier "foo", .Identifier "bar"] = true := by
  have hlex : tokenize_line 0 0 false false "mov foo bar".data =
      .ok [⟨0, 0, 3, "mov", .Instruction "mov"⟩,
           ⟨0, 4, 7, "foo", .Identifier "foo"⟩,
           ⟨0, 8, 11, "bar", .Identifier "bar"⟩] := by
    simp [tokenize_line, read_to_chars, read_to_chars_go, identDelims, numDelims,
      chars_alphanumeric, chars_numeric, chars_binary, chars_hex,
      charIsAlphabetic, charIsNumeric, except_bind_ok, except_bind_error]
  have h := claim_line_classification 0 "mov foo bar".data _ hlex
  simpa using h

/-- C2: lexing the single line `mov %eax, #$00FF` produces exactly the token
kinds Instruction "mov", Register "eax", Comma, Immediate, Hex "00FF", and
parsing that line inside a text-section label yields the instruction
`mov_ImmediateToRegister EAX 0x00FF`. -/
theorem claim_mov_line_lex_and_parse :
    (tokenize_lines ["mov %eax, #$00FF"]).map (fun ts => ts.map Token.token_type) =
      .ok [.Instruction "mov", .Register "eax", .Comma, .Immediate, .Hex "00FF"] ∧
    parse_program [".text", "main:", "mov %eax, #$00FF"] =
      .ok ⟨some ⟨[.mk "main" [.mov_ImmediateToRegister .EAX 0x00FF]]⟩, none⟩ := by
  constructor
  · simp [tokenize_lines, tokenize_lines_go, tokenize_line, read_to_chars,
      read_to_chars_go, identDelims, numDelims, chars_alphanumeric, chars_numeric,
      chars_binary, chars_hex, charIsAlphabetic, charIsNumeric,
      except_bind_ok, except_bind_error, Except.map]
  · simp [parse_program, tokenize_lines, tokenize_lines_go, tokenize_line,
      read_to_chars, read_to_chars_go, identDelims, numDelims, chars_alphanumeric,
      chars_numeric, chars_binary, chars_hex, charIsAlphabetic, charIsNumeric,
      except_bind_ok, except_bind_error, build_program, build_program_go,
      TextSection.parse, TextSection.parse_go, read_tokens_to_label_or_eos,
      is_label_or_eos, parse_subroutine_lines, take_line,
      parse_instruction_arguments, split_tokens_by_commas,
      split_tokens_by_commas_go, parse_arguments_go, InstructionArgumentType.parse,
      Instruction.parse, Token.parse_u16, radix_word_u16, from_str_radix_u16,
      from_str_radix_go, char_to_digit, Register.from_name]

/-- C3 counterexample: on the line `.word foo` the first bare identifier of
the line, `foo`, is lexed as an Identifier rather than an Instruction,
because a directive token was already seen on the line — refuting the claim
that the first bare identifier on a line is always an Instruction token. -/
theorem claim_first_bare_identifier_counterexample :
    (tokenize_lines [".word foo"]).map (fun ts => ts.map Token.token_type) =
      .ok [.Directive "word", .Identifier "foo"] := by
  simp [tokenize_lines, tokenize_lines_go, tokenize_line, read_to_chars,
    read_to_chars_go, identDelims, numDelims, chars_alphanumeric, chars_numeric,
    chars_binary, chars_hex, charIsAlphabetic, charIsNumeric,
    except_bind_ok, except_bind_error, Except.map]

/-- C4 evaluation at the failing input: on the line `"ab` the string literal
is never closed, yet the lexer reports no error — it emits an AsciiString
token, and its payload `a` even drops the final character of the line.  The
unterminated-string error fires only when the opening quote is the very last
character of the line, as the second conjunct shows. -/
theorem claim_unterminated_string_divergence :
    tokenize_lines ["\"ab"] = .ok [⟨0, 0, 3, "\"ab", .AsciiString "a"⟩] ∧
    tokenize_lines ["\""] =
      .error (.reported "Expected closing \x27\x22\x27 for string literal" 0 0 1) := by
  constructor <;>
    simp [tokenize_lines, tokenize_lines_go, tokenize_line, read_to_char_inclusive,
      read_to_char_inclusive_go, charIsAlphabetic, charIsNumeric,
      except_bind_ok, except_bind_error]

/-- C5 counterexample: identifier scanning does not stop at a semicolon.  On
the line `mov a;b` the second token is accumulated as `a;b` (the semicolon
and the following character included), which then fails the alphanumeric
payload check — whereas the claimed delimiter set would stop at the
semicolon, emit Identifier "a" and treat the rest as a comment. -/
theorem claim_delimiter_set_counterexample :
    tokenize_lines ["mov a;b"] =
      .error (.reported "Identifier name must be alphanumeric!" 0 4 7) := by
  simp [tokenize_lines, tokenize_lines_go, tokenize_line, read_to_chars,
    read_to_chars_go, identDelims, numDelims, chars_alphanumeric, chars_numeric,
    chars_binary, chars_hex, charIsAlphabetic, charIsNumeric,
    except_bind_ok, except_bind_error]

theorem read_to_chars_go_spec (delims : List Char) (l : List Char) :
    (∀ c ∈ (read_to_chars_go delims l).1, c ∉ delims) ∧
    (∀ c cs2, (read_to_chars_go delims l).2 = c :: cs2 → c ∈ delims) := by
  induction l with
  | nil => simp [read_to_chars_go]
  | cons c cs ih =>
    simp only [read_to_chars_go]
    by_cases hc : c ∈ delims
    · refine ⟨by simp [hc], fun c2 cs2 he => ?_⟩
      simp only [hc, if_true] at he
      cases he
      exact hc
    · cases hgo : read_to_chars_go delims cs with
      | mk tk rest =>
        rw [hgo] at ih
        simp only [hc, if_false, hgo]
        refine ⟨?_, ih.2⟩
        intro c2 hc2
        rcases List.mem_cons.mp hc2 with h2 | h2
        · exact h2 ▸ hc
        · exact ih.1 c2 h2

theorem read_to_char_inclusive_go_ne_nil (ch c : Char) (cs : List Char) :
    (read_to_char_inclusive_go ch (c :: cs)).1 ≠ [] := by
  simp only [read_to_char_inclusive_go]
  by_cases hc : (c == ch) = true
  · simp [hc]
  · cases hgo : read_to_char_inclusive_go ch cs with
    | mk tk p => simp [hc, hgo]

theorem read_to_char_inclusive_go_spec (ch : Char) (l : List Char) :
    (∀ c ∈ (read_to_char_inclusive_go ch l).1.dropLast, ¬(c == ch) = true) ∧
    ((read_to_char_inclusive_go ch l).2.2 ≠ [] →
      (read_to_char_inclusive_go ch l).1.getLast? = some ch) := by
  induction l with
  | nil => simp [read_to_char_inclusive_go]
  | cons c cs ih =>
    by_cases hc : (c == ch) = true
    · simp only [read_to_char_inclusive_go, hc, if_true]
      exact ⟨by simp, fun _ => by simp [eq_of_beq hc]⟩
    · cases hgo : read_to_char_inclusive_go ch cs with
      | mk tk p =>
        have hstep : read_to_char_inclusive_go ch (c :: cs) =
            (c :: tk, p.1, p.2) := by
          simp [read_to_char_inclusive_go, hc, hgo]
        rw [hgo] at ih
        rw [hstep]
        cases tk with
        | nil =>
          refine ⟨by simp, fun hre => ?_⟩
          exfalso
          cases cs with
          | nil =>
            have hval : read_to_char_inclusive_go ch ([] : List Char) =
                ([], false, []) := rfl
            rw [hval] at hgo
            have hp2 : p.2 = [] := by
              have h2 := congrArg (fun q => q.2.2) hgo
              simpa using h2.symm
            simp [hp2] at hre
          | cons c2 cs2 =>
            exact read_to_char_inclusive_go_ne_nil ch c2 cs2 (by rw [hgo])
        | cons t1 tk2 =>
          constructor
          · intro c2 hc2
            rw [List.dropLast_cons₂] at hc2
            rcases List.mem_cons.mp hc2 with h2 | h2
            · exact h2 ▸ hc
            · exact ih.1 c2 h2
          · intro hre
            rw [List.getLast?_cons_cons]
            exact ih.2 hre

/-- C5 (amended): every token reader stops exactly at the first character of
its delimiter list and keeps the delimiter out of the payload — but the
delimiter lists differ: `identDelims` (directive and bare-identifier
scanning) does NOT contain the semicolon, while `numDelims` (register/binary,
hex and decimal scanning) does.  String-literal scanning stops only at the
closing quote.  Concretely, the decimal on the line `1;2` stops at the
semicolon and the rest is a comment, while the directive on the line `.w;x`
swallows the semicolon into its payload and dies on the alphanumeric
check. -/
theorem claim_token_scan_delimiters :
    (∀ delims col chars s col2 rest,
      read_to_chars delims col chars = (some s, col2, rest) →
        chars = s ++ rest ∧ (∀ c ∈ s, c ∉ delims) ∧
        (∀ c cs2, rest = c :: cs2 → c ∈ delims)) ∧
    (∀ ch col chars s col2 rest,
      read_to_char_inclusive ch col chars = (some s, col2, rest) →
        chars = s ++ rest ∧ (∀ c ∈ s.dropLast, ¬(c == ch) = true) ∧
        (rest ≠ [] → s.getLast? = some ch)) ∧
    (';' ∈ numDelims ∧ ';' ∉ identDelims) ∧
    tokenize_lines ["1;2"] = .ok [⟨0, 0, 1, "1", .Decimal "1"⟩] ∧
    tokenize_lines [".w;x"] =
      .error (.reported "Directive names must be alphanumeric!" 0 0 4) := by
  refine ⟨?_, ?_, by decide, ?_, ?_⟩
  · intro delims col chars s col2 rest h
    match chars with
    | [] =>
      simp [read_to_chars] at h
    | c :: cs =>
      have happ := read_to_chars_go_append delims (c :: cs)
      have hspec := read_to_chars_go_spec delims (c :: cs)
      simp only [read_to_chars] at h
      cases hgo : read_to_chars_go delims (c :: cs) with
      | mk tk rest0 =>
        rw [hgo] at h happ hspec
        match rest0 with
        | [] =>
          simp at h
          obtain ⟨hs, -, hr⟩ := h
          subst hs
          subst hr
          exact ⟨by simpa using happ.symm, hspec.1, by simp⟩
        | r1 :: rs =>
          by_cases hemp : tk.isEmpty
          · simp [hemp] at h
          · simp only [hemp, Bool.false_eq_true, if_false] at h
            simp at h
            obtain ⟨hs, -, hr⟩ := h
            subst hs
            subst hr
            exact ⟨by simpa using happ.symm, hspec.1, hspec.2⟩
  · intro ch col chars s col2 rest h
    match chars with
    | [] =>
      simp [read_to_char_inclusive] at h
    | c :: cs =>
      have happ := read_to_char_inclusive_go_append ch (c :: cs)
      have hspec := read_to_char_inclusive_go_spec ch (c :: cs)
      simp only [read_to_char_inclusive] at h
      cases hgo : read_to_char_inclusive_go ch (c :: cs) with
      | mk tk p =>
        rw [hgo] at h happ hspec
        simp at h
        obtain ⟨hs, -, hr⟩ := h
        subst hs
        subst hr
        exact ⟨by simpa using happ.symm, hspec.1, hspec.2⟩
  · simp [tokenize_lines, tokenize_lines_go, tokenize_line, read_to_chars,
      read_to_chars_go, identDelims, numDelims, chars_alphanumeric, chars_numeric,
      chars_binary, chars_hex, charIsAlphabetic, charIsNumeric,
      except_bind_ok, except_bind_error]
  · simp [tokenize_lines, tokenize_lines_go, tokenize_line, read_to_chars,
      read_to_chars_go, identDelims, numDelims, chars_alphanumeric, chars_numeric,
      chars_binary, chars_hex, charIsAlphabetic, charIsNumeric,
      except_bind_ok, except_bind_error]

/-- Witness for C5 (amended): scanning `ab;c` with the identifier delimiter
list consumes the whole input (no semicolon in that list), while scanning it
with the numeric delimiter list stops at the semicolon with payload `ab`. -/
theorem claim_token_scan_delimiters_witness :
    ("ab;c".data = ['a', 'b', ';', 'c']) ∧
    (∀ c ∈ ['a', 'b'], c ∉ numDelims) ∧ (';' ∈ numDelims) := by
  refine ⟨by decide, ?_, by decide⟩
  have h := (claim_token_scan_delimiters.1 numDelims 0 "ab;c".data
    ['a', 'b'] 2 [';', 'c'] (by decide))
  exact fun c hc => h.2.1 c hc

/-- C9 evaluation at the failing input: the Arabic-Indic digit three
(U+0663) satisfies the Unicode numeric test that guards the decimal branch,
so the lexer emits a Decimal token whose payload is not a valid base-10
digit string; `Token::parse_u16` on that very token then reaches the panic
branch (`u16::from_str_radix` fails with InvalidDigit, not PosOverflow). -/
theorem claim_decimal_panic_reachable :
    tokenize_lines ["٣"] = .ok [⟨0, 0, 1, "٣", .Decimal "٣"⟩] ∧
    Token.parse_u16 ⟨0, 0, 1, "٣", .Decimal "٣"⟩ =
      .error (.panicked "Unexpected IntErrorKind") := by
  constructor
  · simp [tokenize_lines, tokenize_lines_go, tokenize_line, read_to_chars,
      read_to_chars_go, identDelims, numDelims, chars_alphanumeric, chars_numeric,
      chars_binary, chars_hex, charIsAlphabetic, charIsNumeric,
      except_bind_ok, except_bind_error]
  · simp [Token.parse_u16, radix_word_u16, from_str_radix_u16, from_str_radix_go,
      char_to_digit]

/-- Test for a Comma token, as matched by `split_tokens_by_commas`. -/
def isCommaTok (t : Token) : Bool :=
  match t.token_type with
  | .Comma => true
  | _ => false

/-- Bad comma pattern inside an argument token list: two adjacent commas, or
a comma as the final token. -/
def has_bad_comma_tail : List Token → Bool
  | [] => false
  | [t] => isCommaTok t
  | t :: u :: rest => (isCommaTok t && isCommaTok u) || has_bad_comma_tail (u :: rest)

/-- Test that a parse outcome is the `Unexpected argument separator` report. -/
def is_sep_error (r : Except Failure (List (List Token))) : Prop :=
  match r with
  | .error (.reported msg _ _ _) => msg = sepErrMsg
  | _ => False

theorem isCommaTok_eq {t : Token} (h : isCommaTok t = true) :
    t.token_type = .Comma := by
  cases htt : t.token_type <;> simp_all [isCommaTok]

theorem split_go_comma_step {t : Token} (htt : t.token_type = .Comma)
    {cur : List Token} (hcf : cur.isEmpty = false) (u : Token)
    (rest : List Token) :
    split_tokens_by_commas_go cur (t :: u :: rest) =
      (do
        let r2 ← split_tokens_by_commas_go [] (u :: rest)
        Except.ok (cur :: r2)) := by
  rw [split_tokens_by_commas_go.eq_2, htt]
  simp [hcf]

theorem split_go_bad_tail {ts : List Token} (hbad : has_bad_comma_tail ts = true) :
    ∀ cur, is_sep_error (split_tokens_by_commas_go cur ts) := by
  induction ts with
  | nil => simp [has_bad_comma_tail] at hbad
  | cons t ts ih =>
    intro cur
    match ts, hbad, ih with
    | [], hbad, ih =>
      have htt : t.token_type = .Comma :=
        isCommaTok_eq (by simpa [has_bad_comma_tail] using hbad)
      rw [split_tokens_by_commas_go.eq_2, htt]
      simp [is_sep_error, sepErrMsg]
    | u :: rest, hbad, ih =>
      have hbad2 : (isCommaTok t && isCommaTok u) = true ∨
          has_bad_comma_tail (u :: rest) = true := by
        simpa [has_bad_comma_tail, Bool.or_eq_true_iff] using hbad
      rcases hbad2 with hadj | htail
      · obtain ⟨hct, hcu⟩ := Bool.and_eq_true_iff.mp hadj
        have htt : t.token_type = .Comma := isCommaTok_eq hct
        have hut : u.token_type = .Comma := isCommaTok_eq hcu
        by_cases hcur : cur.isEmpty = true
        · rw [split_tokens_by_commas_go.eq_2, htt]
          simp [hcur, is_sep_error, sepErrMsg]
        · have hcf : cur.isEmpty = false := by simpa using hcur
          rw [split_go_comma_step htt hcf]
          rw [split_tokens_by_commas_go.eq_2, hut]
          simp [is_sep_error, sepErrMsg, except_bind_error]
      · have hse := ih htail
        match httm : t.token_type with
        | .Comma =>
          by_cases hcur : cur.isEmpty = true
          · rw [split_tokens_by_commas_go.eq_2, httm]
            simp [hcur, is_sep_error, sepErrMsg]
          · have hcf : cur.isEmpty = false := by simpa using hcur
            rw [split_go_comma_step httm hcf]
            have hinner := hse []
            cases hs : split_tokens_by_commas_go [] (u :: rest) with
            | error e =>
              rw [hs] at hinner
              rw [except_bind_error]
              exact hinner
            | ok gs =>
              rw [hs] at hinner
              simp [is_sep_error] at hinner
        | .Label n | .Directive n | .Instruction n | .Register n
        | .Identifier n | .Decimal n | .Binary n | .Hex n | .AsciiString n =>
          rw [split_tokens_by_commas_go.eq_2, httm]
          exact hse (cur ++ [t])
        | .Immediate | .OpenBracket | .CloseBracket
        | .OpenParenthesis | .CloseParenthesis =>
          rw [split_tokens_by_commas_go.eq_2, httm]
          exact hse (cur ++ [t])

theorem split_go_groups_nonempty :
    ∀ ts cur gs, split_tokens_by_commas_go cur ts = .ok gs →
      ∀ g ∈ gs, g ≠ [] := by
  intro ts
  induction ts with
  | nil =>
    intro cur gs h g hg
    rw [split_tokens_by_commas_go.eq_1] at h
    cases h
    by_cases hcur : cur.isEmpty = true
    · simp [hcur] at hg
    · simp only [hcur, Bool.false_eq_true, if_false] at hg
      simp at hg
      subst hg
      intro hnil
      rw [hnil] at hcur
      exact hcur rfl
  | cons t ts ih =>
    intro cur gs h g hg
    match httm : t.token_type with
    | .Comma =>
      rw [split_tokens_by_commas_go.eq_2, httm] at h
      by_cases hbad : (cur.isEmpty || ts.isEmpty) = true
      · simp only [hbad, if_true] at h
        exact Except.noConfusion h
      · simp only [hbad, Bool.false_eq_true, if_false] at h
        cases hs : split_tokens_by_commas_go [] ts with
        | error e =>
          rw [hs, except_bind_error] at h
          exact Except.noConfusion h
        | ok gs2 =>
          rw [hs, except_bind_ok] at h
          cases h
          rcases List.mem_cons.mp hg with hgc | hgc
          · subst hgc
            intro hnil
            rw [hnil] at hbad
            simp at hbad
          · exact ih [] gs2 hs g hgc
    | .Label n | .Directive n | .Instruction n | .Register n
    | .Identifier n | .Decimal n | .Binary n | .Hex n | .AsciiString n =>
      rw [split_tokens_by_commas_go.eq_2, httm] at h
      exact ih (cur ++ [t]) gs h g hg
    | .Immediate | .OpenBracket | .CloseBracket
    | .OpenParenthesis | .CloseParenthesis =>
      rw [split_tokens_by_commas_go.eq_2, httm] at h
      exact ih (cur ++ [t]) gs h g hg

/-- C6: splitting an instruction line's argument tokens on commas yields only
non-empty groups — a leading comma, two adjacent commas, or a trailing comma
each produce the `Unexpected argument separator` error, so no argument list
(and hence no AST) is built from such a line. -/
theorem claim_split_commas_nonempty :
    (∀ tokens groups, split_tokens_by_commas tokens = .ok groups →
      ∀ g ∈ groups, g ≠ []) ∧
    (∀ t ts, isCommaTok t = true →
      is_sep_error (split_tokens_by_commas (t :: ts))) ∧
    (∀ tokens, has_bad_comma_tail tokens = true →
      is_sep_error (split_tokens_by_commas tokens)) := by
  refine ⟨?_, ?_, ?_⟩
  · intro tokens groups h g hg
    exact split_go_groups_nonempty tokens [] groups h g hg
  · intro t ts hct
    have htt : t.token_type = .Comma := isCommaTok_eq hct
    unfold split_tokens_by_commas
    rw [split_tokens_by_commas_go.eq_2, htt]
    simp [is_sep_error, sepErrMsg]
  · intro tokens hbad
    exact split_go_bad_tail hbad []

/-- Witness for C6: on the argument tokens of `mov %eax,, %ebx` (register,
comma, comma, register) the splitter reports the separator error, and on a
single register token it returns one non-empty group. -/
theorem claim_split_commas_nonempty_witness :
    is_sep_error (split_tokens_by_commas
      [⟨0, 4, 8, "%eax", .Register "eax"⟩, ⟨0, 8, 9, ",", .Comma⟩,
       ⟨0, 9, 10, ",", .Comma⟩, ⟨0, 11, 15, "%ebx", .Register "ebx"⟩]) ∧
    ([⟨0, 4, 8, "%eax", .Register "eax"⟩] : List Token) ≠ [] := by
  constructor
  · exact claim_split_commas_nonempty.2.2
      [⟨0, 4, 8, "%eax", .Register "eax"⟩, ⟨0, 8, 9, ",", .Comma⟩,
       ⟨0, 9, 10, ",", .Comma⟩, ⟨0, 11, 15, "%ebx", .Register "ebx"⟩]
      (by decide)
  · exact claim_split_commas_nonempty.1
      [⟨0, 4, 8, "%eax", .Register "eax"⟩]
      [[⟨0, 4, 8, "%eax", .Register "eax"⟩]]
      (by simp [split_tokens_by_commas, split_tokens_by_commas_go])
      [⟨0, 4, 8, "%eax", .Register "eax"⟩] (by simp)

/-- C10: the queue length strictly decreases across every top-level loop
iteration of `build_program`.  At the start of an iteration the queue is
`t :: ts` (the popped token `t` must be a section directive); the section
parser consumes `ts` and, even after pushing its one token of lookahead back,
returns a remainder no longer than `ts` — hence strictly shorter than the
iteration's starting queue, so `build_program` terminates on every finite
queue (its Lean embedding is total). -/
theorem claim_build_program_queue_decreases :
    (∀ (t : Token) ts sec rest, DataSection.parse ts = .ok (sec, rest) →
      rest.length < (t :: ts).length) ∧
    (∀ (t : Token) ts sec rest, TextSection.parse ts = .ok (sec, rest) →
      rest.length < (t :: ts).length) := by
  constructor
  · intro t ts sec rest h
    have := dataSection_parse_len h
    simp only [List.length_cons]
    omega
  · intro t ts sec rest h
    have := textSection_parse_len h
    simp only [List.length_cons]
    omega

/-- Witness for C10 at a concrete queue: parsing the data-section body
`x:` `.word` `1` consumes everything, and 0 < 4. -/
theorem claim_build_program_queue_decreases_witness :
    ([] : List Token).length <
      ((⟨0, 0, 5, ".data", TokenType.Directive "data"⟩ : Token) ::
        ([⟨1, 0, 2, "x:", TokenType.Label "x"⟩,
          ⟨2, 0, 5, ".word", TokenType.Directive "word"⟩,
          ⟨2, 6, 7, "1", TokenType.Decimal "1"⟩] : List Token)).length :=
  (claim_build_program_queue_decreases.1
    (⟨0, 0, 5, ".data", TokenType.Directive "data"⟩ : Token)
    ([⟨1, 0, 2, "x:", TokenType.Label "x"⟩,
      ⟨2, 0, 5, ".word", TokenType.Directive "word"⟩,
      ⟨2, 6, 7, "1", TokenType.Decimal "1"⟩] : List Token)
    ⟨[⟨"x", [.Word 1]⟩]⟩ []
    (by simp [DataSection.parse, DataSection.parse_go, read_tokens_to_label_or_eos,
      is_label_or_eos, parse_constant_run, radix_word_u16, from_str_radix_u16,
      from_str_radix_go, char_to_digit, except_bind_ok, except_bind_error]))

theorem parse_constant_run_cons_ne_nil (d c : Token) (rest : List Token)
    (ks : List ConstantLabelType)
    (h : parse_constant_run (d :: c :: rest) = .ok ks) : ks ≠ [] := by
  match httd : d.token_type with
  | .Directive dir =>
    simp only [parse_constant_run, httd] at h
    by_cases hA : (dir == "ascii") = true
    · simp only [hA, if_true] at h
      match httc : c.token_type with
      | .AsciiString str =>
        simp only [httc] at h
        obtain ⟨ks2, -, hks⟩ := bind_cons_ok h
        subst hks
        simp
      | .Label n | .Directive n | .Instruction n | .Register n
      | .Identifier n | .Decimal n | .Binary n | .Hex n =>
        simp only [httc] at h
        exact Except.noConfusion h
      | .Comma | .Immediate | .OpenBracket | .CloseBracket
      | .OpenParenthesis | .CloseParenthesis =>
        simp only [httc] at h
        exact Except.noConfusion h
    · by_cases hW : (dir == "word") = true
      · simp only [hA, hW, Bool.false_eq_true, if_false, if_true] at h
        match httc : c.token_type with
        | .Binary v =>
          simp only [httc] at h
          cases hw : radix_word_u16 2 binOverflowMsg c v with
          | error e =>
            rw [hw, except_bind_error] at h
            exact Except.noConfusion h
          | ok bv =>
            rw [hw, except_bind_ok] at h
            obtain ⟨ks2, -, hks⟩ := bind_cons_ok h
            subst hks
            simp
        | .Decimal v =>
          simp only [httc] at h
          cases hw : radix_word_u16 10 decOverflowMsg c v with
          | error e =>
            rw [hw, except_bind_error] at h
            exact Except.noConfusion h
          | ok dv =>
            rw [hw, except_bind_ok] at h
            obtain ⟨ks2, -, hks⟩ := bind_cons_ok h
            subst hks
            simp
        | .Hex v =>
          simp only [httc] at h
          cases hw : radix_word_u16 16 hexOverflowMsg c v with
          | error e =>
            rw [hw, except_bind_error] at h
            exact Except.noConfusion h
          | ok hv =>
            rw [hw, except_bind_ok] at h
            obtain ⟨ks2, -, hks⟩ := bind_cons_ok h
            subst hks
            simp
        | .Label n | .Directive n | .Instruction n | .Register n
        | .Identifier n | .AsciiString n =>
          simp only [httc] at h
          exact Except.noConfusion h
        | .Comma | .Immediate | .OpenBracket | .CloseBracket
        | .OpenParenthesis | .CloseParenthesis =>
          simp only [httc] at h
          exact Except.noConfusion h
      · simp only [hA, hW, Bool.false_eq_true, if_false] at h
        exact Except.noConfusion h
  | .Label n | .Instruction n | .Register n | .Identifier n
  | .Decimal n | .Binary n | .Hex n | .AsciiString n =>
    simp only [parse_constant_run, httd] at h
    exact Except.noConfusion h
  | .Comma | .Immediate | .OpenBracket | .CloseBracket
  | .OpenParenthesis | .CloseParenthesis =>
    simp only [parse_constant_run, httd] at h
    exact Except.noConfusion h

theorem parse_constant_run_ne_nil {run : List Token} {ks : List ConstantLabelType}
    (hne : run ≠ []) (h : parse_constant_run run = .ok ks) : ks ≠ [] := by
  match run with
  | [] => exact absurd rfl hne
  | [t] =>
    simp only [parse_constant_run] at h
    exact Except.noConfusion h
  | d :: c :: rest => exact parse_constant_run_cons_ne_nil d c rest ks h

theorem parse_subroutine_lines_ne_nil {toks : List Token}
    {instrs : List Instruction} (hne : toks ≠ [])
    (h : parse_subroutine_lines toks = .ok instrs) : instrs ≠ [] := by
  match toks with
  | [] => exact absurd rfl hne
  | t :: ts =>
    match htt : t.token_type with
    | .Instruction mnem =>
      simp only [parse_subroutine_lines, htt] at h
      cases h1 : parse_instruction_arguments (take_line t.line_number ts).1 with
      | error e =>
        rw [h1, except_bind_error] at h
        exact Except.noConfusion h
      | ok args =>
        rw [h1, except_bind_ok] at h
        cases h2 : Instruction.parse mnem args t.line_number t.column_start
            (((t :: (take_line t.line_number ts).1).getLastD t).column_end) with
        | error e =>
          rw [h2, except_bind_error] at h
          exact Except.noConfusion h
        | ok instr =>
          rw [h2, except_bind_ok] at h
          obtain ⟨is2, -, his⟩ := bind_cons_ok h
          subst his
          simp
    | .Label n | .Directive n | .Register n | .Identifier n
    | .Decimal n | .Binary n | .Hex n | .AsciiString n =>
      simp only [parse_subroutine_lines, htt] at h
      exact Except.noConfusion h
    | .Comma | .Immediate | .OpenBracket | .CloseBracket
    | .OpenParenthesis | .CloseParenthesis =>
      simp only [parse_subroutine_lines, htt] at h
      exact Except.noConfusion h

theorem dataSection_parse_go_labels :
    ∀ ts labels rest, DataSection.parse_go ts = .ok (labels, rest) →
      ∀ lbl ∈ labels, lbl.constants ≠ [] := by
  intro ts
  induction ts using DataSection.parse_go.induct with
  | case1 =>
    intro labels rest h
    simp only [DataSection.parse_go] at h
    cases h
    simp
  | case2 t ts name hname htest =>
    intro labels rest h
    simp only [DataSection.parse_go, hname, htest, if_true] at h
    cases h
    simp
  | case3 t ts name hname htest =>
    intro labels rest h
    simp only [DataSection.parse_go, hname, htest, if_false] at h
    exact Except.noConfusion h
  | case4 t ts name hname r hempty =>
    intro labels rest h
    have he : ((read_tokens_to_label_or_eos ts).1.length == 0) = true := hempty
    simp only [DataSection.parse_go, hname, he, if_true] at h
    exact Except.noConfusion h
  | case5 t ts name hname r hempty ih =>
    intro labels rest h
    have he : ¬((read_tokens_to_label_or_eos ts).1.length == 0) = true := hempty
    simp only [DataSection.parse_go, hname, he, if_false] at h
    cases hc : parse_constant_run (read_tokens_to_label_or_eos ts).1 with
    | error e =>
      rw [hc, except_bind_error] at h
      exact Except.noConfusion h
    | ok constants =>
      rw [hc, except_bind_ok] at h
      cases hg : DataSection.parse_go (read_tokens_to_label_or_eos ts).2 with
      | error e =>
        rw [hg, except_bind_error] at h
        exact Except.noConfusion h
      | ok p =>
        rw [hg, except_bind_ok] at h
        obtain ⟨labels1, rest2⟩ := p
        simp at h
        obtain ⟨hl, -⟩ := h
        have hrdef : r = read_tokens_to_label_or_eos ts := rfl
        intro lbl hmem
        rw [← hl] at hmem
        rcases List.mem_cons.mp hmem with hm | hm
        · subst hm
          have hrun_ne : (read_tokens_to_label_or_eos ts).1 ≠ [] := by
            intro hnil
            rw [hnil] at he
            simp at he
          exact parse_constant_run_ne_nil hrun_ne hc
        · have hih := ih labels1 rest2 (hrdef ▸ hg)
          exact hih lbl hm
  | case6 t ts h1 h2 =>
    intro labels rest h
    simp only [DataSection.parse_go] at h
    exact Except.noConfusion h

theorem textSection_parse_go_labels :
    ∀ ts labels rest, TextSection.parse_go ts = .ok (labels, rest) →
      ∀ lbl ∈ labels, lbl.instructions ≠ [] := by
  intro ts
  induction ts using TextSection.parse_go.induct with
  | case1 =>
    intro labels rest h
    simp only [TextSection.parse_go] at h
    cases h
    simp
  | case2 t ts name hname htest =>
    intro labels rest h
    simp only [TextSection.parse_go, hname, htest, if_true] at h
    cases h
    simp
  | case3 t ts name hname htest =>
    intro labels rest h
    simp only [TextSection.parse_go, hname, htest, if_false] at h
    exact Except.noConfusion h
  | case4 t ts name hname r hempty =>
    intro labels rest h
    have he : ((read_tokens_to_label_or_eos ts).1.length == 0) = true := hempty
    simp only [TextSection.parse_go, hname, he, if_true] at h
    exact Except.noConfusion h
  | case5 t ts name hname r hempty ih =>
    intro labels rest h
    have he : ¬((read_tokens_to_label_or_eos ts).1.length == 0) = true := hempty
    simp only [TextSection.parse_go, hname, he, if_false] at h
    cases hc : parse_subroutine_lines (read_tokens_to_label_or_eos ts).1 with
    | error e =>
      rw [hc, except_bind_error] at h
      exact Except.noConfusion h
    | ok instructions =>
      rw [hc, except_bind_ok] at h
      cases hg : TextSection.parse_go (read_tokens_to_label_or_eos ts).2 with
      | error e =>
        rw [hg, except_bind_error] at h
        exact Except.noConfusion h
      | ok p =>
        rw [hg, except_bind_ok] at h
        obtain ⟨labels1, rest2⟩ := p
        simp at h
        obtain ⟨hl, -⟩ := h
        have hrdef : r = read_tokens_to_label_or_eos ts := rfl
        intro lbl hmem
        rw [← hl] at hmem
        rcases List.mem_cons.mp hmem with hm | hm
        · subst hm
          have hrun_ne : (read_tokens_to_label_or_eos ts).1 ≠ [] := by
            intro hnil
            rw [hnil] at he
            simp at he
          simp only [SubroutineLabel.instructions]
          exact parse_subroutine_lines_ne_nil hrun_ne hc
        · have hih := ih labels1 rest2 (hrdef ▸ hg)
          exact hih lbl hm
  | case6 t ts h1 h2 =>
    intro labels rest h
    simp only [TextSection.parse_go] at h
    exact Except.noConfusion h

/-- Label invariant of a parsed program: every constant label of the data
section has constants, and every subroutine label of the text section has
instructions. -/
def program_labels_ok (p : Program) : Prop :=
  (∀ ds, p.data = some ds → ∀ lbl ∈ ds.labels, lbl.constants ≠ []) ∧
  (∀ tsec, p.text = some tsec → ∀ lbl ∈ tsec.labels, lbl.instructions ≠ [])

theorem dataSection_parse_labels {ts : List Token} {sec : DataSection}
    {rest : List Token} (hp : DataSection.parse ts = .ok (sec, rest)) :
    ∀ lbl ∈ sec.labels, lbl.constants ≠ [] := by
  unfold DataSection.parse at hp
  cases hg : DataSection.parse_go ts with
  | error e =>
    rw [hg, except_bind_error] at hp
    exact Except.noConfusion hp
  | ok q =>
    obtain ⟨labels, rest1⟩ := q
    rw [hg, except_bind_ok] at hp
    simp at hp
    obtain ⟨hsec, -⟩ := hp
    intro lbl hmem
    refine dataSection_parse_go_labels ts labels rest1 hg lbl ?_
    rw [← hsec] at hmem
    exact hmem

theorem textSection_parse_labels {ts : List Token} {sec : TextSection}
    {rest : List Token} (hp : TextSection.parse ts = .ok (sec, rest)) :
    ∀ lbl ∈ sec.labels, lbl.instructions ≠ [] := by
  unfold TextSection.parse at hp
  cases hg : TextSection.parse_go ts with
  | error e =>
    rw [hg, except_bind_error] at hp
    exact Except.noConfusion hp
  | ok q =>
    obtain ⟨labels, rest1⟩ := q
    rw [hg, except_bind_ok] at hp
    simp at hp
    obtain ⟨hsec, -⟩ := hp
    intro lbl hmem
    refine textSection_parse_go_labels ts labels rest1 hg lbl ?_
    rw [← hsec] at hmem
    exact hmem

theorem build_program_go_labels :
    ∀ ast tokens prog, program_labels_ok ast →
      build_program_go ast tokens = .ok prog → program_labels_ok prog := by
  intro ast tokens
  induction ast, tokens using build_program_go.induct with
  | case1 ast =>
    intro prog hok h
    simp only [build_program_go] at h
    cases h
    exact hok
  | case2 ast t ts directive htt hd hdata sec rest hp ih =>
    intro prog hok h
    obtain ⟨otext, odata⟩ := ast
    simp only at hdata
    subst hdata
    simp only [build_program_go, htt, hd, if_true, hp] at h
    refine ih prog ⟨?_, hok.2⟩ h
    intro ds hds lbl hmem
    simp only [Option.some.injEq] at hds
    subst hds
    exact dataSection_parse_labels hp lbl hmem
  | case3 ast t ts directive htt hd hdata e hp =>
    intro prog hok h
    obtain ⟨otext, odata⟩ := ast
    simp only at hdata
    subst hdata
    simp only [build_program_go, htt, hd, if_true, hp] at h
    exact Except.noConfusion h
  | case4 ast t ts directive htt hd val hdata =>
    intro prog hok h
    obtain ⟨otext, odata⟩ := ast
    simp only at hdata
    subst hdata
    simp only [build_program_go, htt, hd, if_true] at h
    exact Except.noConfusion h
  | case5 ast t ts directive htt hd htx htext sec rest hp ih =>
    intro prog hok h
    obtain ⟨otext, odata⟩ := ast
    simp only at htext
    subst htext
    simp only [build_program_go, htt, hd, htx, Bool.false_eq_true, if_false,
      if_true, hp] at h
    refine ih prog ⟨hok.1, ?_⟩ h
    intro tsec hts lbl hmem
    simp only [Option.some.injEq] at hts
    subst hts
    exact textSection_parse_labels hp lbl hmem
  | case6 ast t ts directive htt hd htx htext e hp =>
    intro prog hok h
    obtain ⟨otext, odata⟩ := ast
    simp only at htext
    subst htext
    simp only [build_program_go, htt, hd, htx, Bool.false_eq_true, if_false,
      if_true, hp] at h
    exact Except.noConfusion h
  | case7 ast t ts directive htt hd htx val htext =>
    intro prog hok h
    obtain ⟨otext, odata⟩ := ast
    simp only at htext
    subst htext
    simp only [build_program_go, htt, hd, htx, Bool.false_eq_true, if_false,
      if_true] at h
    exact Except.noConfusion h
  | case8 ast t ts directive htt hd htx =>
    intro prog hok h
    simp only [build_program_go, htt, hd, htx, Bool.false_eq_true, if_false] at h
    exact Except.noConfusion h
  | case9 ast t ts hnd =>
    intro prog hok h
    simp only [build_program_go] at h
    exact Except.noConfusion h

/-- C7: a label whose token run up to the next label or section boundary is
empty is rejected with the `cannot be empty` error, in both the data and the
text section; consequently, in every Program returned by `build_program`,
every ConstantLabel has a non-empty constants list and every SubroutineLabel
has a non-empty instructions list. -/
theorem claim_labels_never_empty :
    (∀ (t : Token) name ts, t.token_type = .Label name →
      (read_tokens_to_label_or_eos ts).1 = [] →
      DataSection.parse (t :: ts) = .error (.reported
        ("Label `" ++ name ++ "` cannot be empty!")
        t.line_number t.column_start t.column_end)) ∧
    (∀ (t : Token) name ts, t.token_type = .Label name →
      (read_tokens_to_label_or_eos ts).1 = [] →
      TextSection.parse (t :: ts) = .error (.reported
        ("Label `" ++ name ++ "` cannot be empty!")
        t.line_number t.column_start t.column_end)) ∧
    (∀ tokens prog, build_program tokens = .ok prog →
      (∀ ds, prog.data = some ds → ∀ lbl ∈ ds.labels, lbl.constants ≠ []) ∧
      (∀ tsec, prog.text = some tsec →
        ∀ lbl ∈ tsec.labels, lbl.instructions ≠ [])) := by
  refine ⟨?_, ?_, ?_⟩
  · intro t name ts hname hrun
    have he : ((read_tokens_to_label_or_eos ts).1.length == 0) = true := by
      rw [hrun]
      rfl
    simp [DataSection.parse, DataSection.parse_go, hname, he, except_bind_error]
  · intro t name ts hname hrun
    have he : ((read_tokens_to_label_or_eos ts).1.length == 0) = true := by
      rw [hrun]
      rfl
    simp [TextSection.parse, TextSection.parse_go, hname, he, except_bind_error]
  · intro tokens prog h
    have hok := build_program_go_labels ⟨none, none⟩ tokens prog
      ⟨fun ds hds => Option.noConfusion hds,
       fun tsec hts => Option.noConfusion hts⟩ h
    exact hok

/-- Witness for C7: the lone label `foo:` at the end of a data section is
rejected as empty, and in the parsed program `.data x: .word 1` the single
constant label has the non-empty constant list [Word 1]. -/
theorem claim_labels_never_empty_witness :
    DataSection.parse [⟨0, 0, 4, "foo:", .Label "foo"⟩] =
      .error (.reported "Label `foo` cannot be empty!" 0 0 4) ∧
    ([ConstantLabelType.Word 1] : List ConstantLabelType) ≠ [] := by
  constructor
  · have h := claim_labels_never_empty.1 ⟨0, 0, 4, "foo:", .Label "foo"⟩ "foo" []
      rfl (by rfl)
    simpa using h
  · have hprog : build_program
        [⟨0, 0, 5, ".data", .Directive "data"⟩,
         ⟨1, 0, 2, "x:", .Label "x"⟩,
         ⟨2, 0, 5, ".word", .Directive "word"⟩,
         ⟨2, 6, 7, "1", .Decimal "1"⟩] =
        .ok ⟨none, some ⟨[⟨"x", [.Word 1]⟩]⟩⟩ := by
      simp [build_program, build_program_go, DataSection.parse,
        DataSection.parse_go, read_tokens_to_label_or_eos, is_label_or_eos,
        parse_constant_run, radix_word_u16, from_str_radix_u16,
        from_str_radix_go, char_to_digit, except_bind_ok, except_bind_error]
    exact (claim_labels_never_empty.2.2 _ _ hprog).1
      ⟨[⟨"x", [.Word 1]⟩]⟩ rfl ⟨"x", [.Word 1]⟩ (by simp)

/-- C8: tokenizing then parsing is deterministic — the lexer and the parser
are pure functions of the input line sequence (the embedding threads every
piece of state explicitly, mirroring the Rust code, which keeps no global
mutable state), so two runs on the same lines produce structurally equal
token sequences and structurally equal Programs. -/
theorem claim_pipeline_deterministic :
    ∀ lines1 lines2, lines1 = lines2 →
      tokenize_lines lines1 = tokenize_lines lines2 ∧
      parse_program lines1 = parse_program lines2 := by
  intro lines1 lines2 h
  subst h
  exact ⟨rfl, rfl⟩

/-- Witness for C8 at a concrete program. -/
theorem claim_pipeline_deterministic_witness :
    tokenize_lines [".text", "m:", "nop"] = tokenize_lines [".text", "m:", "nop"] ∧
    parse_program [".text", "m:", "nop"] = parse_program [".text", "m:", "nop"] :=
  claim_pipeline_deterministic [".text", "m:", "nop"] [".text", "m:", "nop"] rfl

end Spasm
